import Mathlib

/-!
Verification of the ZeroAnalyst core pipeline (cleaning, type inference,
statistics, insight generation) against its natural-language specification.

The Python source (backend/modules/data_cleaner.py, stats_engine.py,
insight_engine.py, backend/app.py) is shallowly embedded below:

* a pandas DataFrame is a list of named columns, each an ordered list of
  cell values (`Value`); `NaN`/`None` cells are `Value.null`;
* floats are modelled as rationals (`ℚ`); the two places where a genuinely
  irrational real could appear (the standard deviation, a square root, and
  the Pearson coefficient) are handled by storing the sample variance
  (`std ** 2`, from which every comparison the code makes on `std` is
  expressed exactly) and by abstracting the Pearson coefficient as an
  oracle parameter `cf` (no claim depends on its numeric value);
* `pd.to_datetime` string parsing is abstracted as an oracle parameter
  `p : String → Option ℤ`; all theorems quantify over it;
* insight strings are modelled as structured records (`Insight`) carrying
  the message kind and the identifiers it cites, abstracting the literal
  f-string formatting.
-/

set_option autoImplicit false

namespace ZeroAnalyst

/-- Cell value of a table: missing (`NaN`/`None`/`NaT`), numeric, text,
or datetime (a timestamp). -/
inductive Value
  | null
  | num (q : ℚ)
  | str (s : String)
  | date (d : ℤ)
deriving DecidableEq

/-- whether a cell is missing (`pd.isna`). -/
def Value.isNull : Value → Bool
  | .null => true
  | _ => false

/-- whether a cell is a numeric value. -/
def Value.isNum : Value → Bool
  | .num _ => true
  | _ => false

/-- whether a cell is a datetime value. -/
def Value.isDate : Value → Bool
  | .date _ => true
  | _ => false

/-- a row of a table, one cell per column. -/
abbrev Row := List Value

/-- a named column. -/
abbrev Col := String × List Value

/-- a DataFrame: ordered named columns (order significant, as in pandas). -/
abbrev DF := List Col

/-- number of rows (`len(df)`): the length of the columns. -/
def nrows : DF → Nat
  | [] => 0
  | c :: _ => c.2.length

/-- the ordered column names (`df.columns`). -/
def header (df : DF) : List String := df.map Prod.fst

/-- well-formedness: all columns have the same length (true of every
pandas DataFrame). -/
def Wf (df : DF) : Prop := ∀ c ∈ df, c.2.length = nrows df

/-- boolean membership in a list, by structural recursion (kept
kernel-friendly on purpose). -/
def bmem {α : Type} [DecidableEq α] (a : α) : List α → Bool
  | [] => false
  | b :: bs => decide (b = a) || bmem a bs

/-- first-occurrence deduplication of a list, carrying the set of
elements already seen. -/
def uniqFirst {α : Type} [DecidableEq α] (seen : List α) : List α → List α
  | [] => []
  | a :: as => if bmem a seen then uniqFirst seen as else a :: uniqFirst (a :: seen) as

/-- indices of the first occurrences among an indexed list of items
(`DataFrame.drop_duplicates` keeps the first of each group of equal rows). -/
def keptIdx {α : Type} [DecidableEq α] (seen : List α) : List (Nat × α) → List Nat
  | [] => []
  | (i, a) :: as => if bmem a seen then keptIdx seen as else i :: keptIdx (a :: seen) as

/-- the `i`-th row of the table. -/
def rowAt (df : DF) (i : Nat) : Row := df.map (fun c => c.2.getD i .null)

/-- all rows of the table, in order. -/
def rowsOf (df : DF) : List Row := (List.range (nrows df)).map (rowAt df)

/-- indices of the rows kept by `drop_duplicates` (first occurrence of
each distinct row). -/
def keptIndices (df : DF) : List Nat := keptIdx [] (rowsOf df).enum

/-- `DataCleaner._remove_duplicates`' effect on the table:
`self.df = self.df.drop_duplicates()`. -/
def dropDuplicates (df : DF) : DF :=
  df.map (fun c => (c.1, (keptIndices df).map (fun i => c.2.getD i .null)))

/-- one discrete cleaning decision: the structured content of the
human-readable strings appended to `self.cleaning_report`. -/
inductive Action
  | removedDuplicates (count : Nat)
  | droppedColumn (col : String) (pct : ℚ)
  | filledMedian (col : String) (count : Nat) (fill : ℚ)
  | filledUnknown (col : String) (count : Nat)
  | filledMode (col : String) (count : Nat) (fill : Value)
deriving DecidableEq

/-- the action list produced by `_remove_duplicates` (recorded only when
rows were actually removed). -/
def dedupActions (df : DF) : List Action :=
  let before := nrows df
  let after := nrows (dropDuplicates df)
  if after < before then [.removedDuplicates (before - after)] else []

/-- number of missing cells in a column (`df[col].isna().sum()`). -/
def countNulls (vs : List Value) : Nat := (vs.filter (fun v => v.isNull)).length

/-- the non-missing cells of a column (`df[col].dropna()`). -/
def nonNulls (vs : List Value) : List Value := vs.filter (fun v => !v.isNull)

/-- the numeric values of a column (pandas numeric reductions skip `NaN`). -/
def numsOf (vs : List Value) : List ℚ :=
  vs.filterMap (fun v => match v with | .num q => some q | _ => none)

/-- `pd.api.types.is_numeric_dtype`: a column holds a numeric dtype iff
every cell is numeric or missing (an all-`NaN` column read from a file is
`float64`, hence numeric). -/
def isNumericDtype (vs : List Value) : Bool := vs.all (fun v => v.isNull || v.isNum)

/-- `pd.api.types.is_datetime64_any_dtype`: every cell is a datetime or
missing (`NaT`). -/
def isDatetimeDtype (vs : List Value) : Bool := vs.all (fun v => v.isNull || v.isDate)

/-- stable insertion into a sorted list (used to model the sorting done
by `pandas`/Python; stability matches Python's stable sort). -/
def insertSorted {α : Type} (le : α → α → Bool) (a : α) : List α → List α
  | [] => [a]
  | b :: bs => if le a b then a :: b :: bs else b :: insertSorted le a bs

/-- stable insertion sort by the boolean relation `le`. -/
def sortBy {α : Type} (le : α → α → Bool) : List α → List α
  | [] => []
  | a :: as => insertSorted le a (sortBy le as)

/-- sort rationals ascending. -/
def sortQ (xs : List ℚ) : List ℚ := sortBy (fun a b => decide (a ≤ b)) xs

/-- pandas `Series.median` over the given values: middle element of the
sorted list, or the mean of the two middle elements (0 is a junk value
for the empty list, where pandas yields `NaN`; every use below is guarded
by nonemptiness). -/
def medianQ (xs : List ℚ) : ℚ :=
  let s := sortQ xs
  let n := s.length
  if n = 0 then 0
  else if n % 2 = 1 then s.getD (n / 2) 0
  else (s.getD (n / 2 - 1) 0 + s.getD (n / 2) 0) / 2

/-- number of occurrences of a value in a column. -/
def countVal (v : Value) (vs : List Value) : Nat :=
  (vs.filter (fun w => decide (w = v))).length

/-- the largest multiplicity among the values of a column. -/
def maxCount (vs : List Value) : Nat := (vs.map (fun v => countVal v vs)).foldr Nat.max 0

/-- pandas `Series.mode()`: the non-missing values of maximal multiplicity.
pandas returns them sorted by an internal order that the spec leaves
implementation-defined (§9); we fix first-occurrence order. -/
def modeList (vs : List Value) : List Value :=
  let nn := nonNulls vs
  (uniqFirst [] nn).filter (fun v => decide (countVal v nn = maxCount nn))

/-- `missing_pct = (missing_count / len(self.df)) * 100` from
`_handle_missing_values` (ℚ division; the `len = 0` case never reaches
this expression since it requires `missing_count > 0`). -/
def missingPct (rowCount : Nat) (vs : List Value) : ℚ :=
  ((countNulls vs : ℚ) / (rowCount : ℚ)) * 100

/-- replace every missing cell of a column by the given fill value
(`Series.fillna`). -/
def fillNulls (fill : Value) (vs : List Value) : List Value :=
  vs.map (fun v => if v.isNull then fill else v)

/-- the body of `_handle_missing_values` for one column: keep it unchanged
(no missing), drop it (more than 50% missing), fill numeric with the
median, or fill non-numeric with the mode (or the literal "Unknown" when
the mode is empty). `rowCount` is `len(self.df)`, which column drops do
not change during the loop. -/
def handleCol (rowCount : Nat) (c : Col) : Option Col × List Action :=
  let missing := countNulls c.2
  if missing = 0 then (some c, [])
  else
    let pct := missingPct rowCount c.2
    if 50 < pct then (none, [.droppedColumn c.1 pct])
    else if isNumericDtype c.2 then
      let m := medianQ (numsOf c.2)
      (some (c.1, fillNulls (.num m) c.2), [.filledMedian c.1 missing m])
    else
      match (modeList c.2).head? with
      | none => (some (c.1, fillNulls (.str "Unknown") c.2), [.filledUnknown c.1 missing])
      | some mv => (some (c.1, fillNulls mv c.2), [.filledMode c.1 missing mv])

/-- `DataCleaner._handle_missing_values`: the per-column loop. Columns are
processed independently (the loop's only cross-column state, `len(self.df)`,
is unchanged by column drops), so the sequential loop is the per-column
map below. -/
def handleMissingValues (df : DF) : DF × List Action :=
  let n := nrows df
  (df.filterMap (fun c => (handleCol n c).1),
   df.foldr (fun c acc => (handleCol n c).2 ++ acc) [])

/-- the semantic column types assigned by `_detect_column_types`
(string tags 'numeric' / 'datetime' / 'categorical' in the source). -/
inductive CType
  | numeric
  | categorical
  | datetime
deriving DecidableEq

/-- datetime conversion of a single cell under the parsing oracle `p`
(which stands for `pd.to_datetime` on strings): strings parse via `p`,
datetimes pass through, missing stays `NaT`; a numeric cell makes the
column-wide conversion fail in this model (such columns take the numeric
branch first anyway). -/
def parseValue (p : String → Option ℤ) : Value → Option Value
  | .str s => (p s).map .date
  | .date d => some (.date d)
  | .null => some .null
  | .num _ => none

/-- `pd.to_datetime(column, errors='raise')`: succeeds iff every cell
parses, returning the converted column. -/
def tryParseAll (p : String → Option ℤ) : List Value → Option (List Value)
  | [] => some []
  | v :: vs =>
    match parseValue p v, tryParseAll p vs with
    | some w, some ws => some (w :: ws)
    | _, _ => none

/-- the body of `_detect_column_types` for one column: numeric dtype →
numeric; datetime dtype → datetime; otherwise attempt a full datetime
parse, converting on success, else categorical. Returns the (possibly
converted) column and its type entry. -/
def detectCol (p : String → Option ℤ) (c : Col) : Col × (String × CType) :=
  if isNumericDtype c.2 then (c, (c.1, .numeric))
  else if isDatetimeDtype c.2 then (c, (c.1, .datetime))
  else
    match tryParseAll p c.2 with
    | some ws => ((c.1, ws), (c.1, .datetime))
    | none => (c, (c.1, .categorical))

/-- `DataCleaner._detect_column_types`: per surviving column, assign a
type and possibly convert to datetime; the type map is built in column
order (Python dict insertion order). -/
def detectColumnTypes (p : String → Option ℤ) (df : DF) : DF × List (String × CType) :=
  (df.map (fun c => (detectCol p c).1), df.map (fun c => (detectCol p c).2))

/-- the cleaning report returned by `DataCleaner.clean`. -/
structure Report where
  original_rows : Nat
  original_cols : Nat
  cleaned_rows : Nat
  cleaned_cols : Nat
  actions : List Action
  column_types : List (String × CType)
deriving DecidableEq

/-- `DataCleaner.clean`: deduplicate rows, handle missing values, detect
column types, and assemble the report. -/
def clean (p : String → Option ℤ) (df : DF) : DF × Report :=
  let d1 := dropDuplicates df
  let a1 := dedupActions df
  let hm := handleMissingValues d1
  let dt := detectColumnTypes p hm.1
  (dt.1,
   { original_rows := nrows df
     original_cols := df.length
     cleaned_rows := nrows dt.1
     cleaned_cols := dt.1.length
     actions := a1 ++ hm.2
     column_types := dt.2 })

/-- pandas `df[name]`: the values of the (first) column with the given
name. -/
def dfCol (df : DF) (name : String) : List Value :=
  ((df.find? (fun c => decide (c.1 = name))).map Prod.snd).getD []

/-- the sample mean (`Series.mean`; 0 is a junk value for the empty list,
where pandas yields `NaN` — every downstream comparison is guarded by a
count check, see `stdPos`). -/
def meanQ (xs : List ℚ) : ℚ := xs.sum / (xs.length : ℚ)

/-- the sample variance, i.e. the square of `Series.std()` (divisor
`n − 1`): for `n ≤ 1` pandas yields `NaN`, represented by the junk value
0, which like `NaN` fails every `std > 0` test. The source stores
`std = sqrt` of this; since `sqrt` is irrational, the bundle stores the
variance and every comparison the code performs on `std` is translated
exactly (see `stdPos`, `cvOver50`). -/
def varQ (xs : List ℚ) : ℚ :=
  if xs.length ≤ 1 then 0
  else ((xs.map (fun x => (x - meanQ xs) ^ 2)).sum) / ((xs.length : ℚ) - 1)

/-- pandas `Series.quantile` (linear interpolation on the sorted values;
0 is a junk value for the empty list). -/
def quantileQ (q : ℚ) (xs : List ℚ) : ℚ :=
  let s := sortQ xs
  let n := s.length
  if n = 0 then 0
  else
    let h : ℚ := q * ((n : ℚ) - 1)
    let l : Nat := h.floor.toNat
    let g : ℚ := h - (l : ℚ)
    s.getD l 0 + g * (s.getD (min (l + 1) (n - 1)) 0 - s.getD l 0)

/-- numeric `Series.mode()[0]`: smallest among the most frequent values
(pandas sorts numeric modes ascending); 0 when the mode is empty, as in
`_get_numeric_stats`. -/
def modeQ (xs : List ℚ) : ℚ :=
  let m := (xs.map (fun x => (xs.filter (fun y => decide (y = x))).length)).foldr Nat.max 0
  match sortQ (uniqFirst [] (xs.filter (fun x => decide ((xs.filter (fun y => decide (y = x))).length = m)))) with
  | [] => 0
  | x :: _ => x

/-- the fixed-field record built per numeric column by
`StatsEngine._get_numeric_stats`. `svar` is the square of the stored
`std` (see `varQ`). -/
structure NumStats where
  mean : ℚ
  median : ℚ
  mode : ℚ
  svar : ℚ
  min : ℚ
  max : ℚ
  q1 : ℚ
  q3 : ℚ
  sum : ℚ
  count : Nat
deriving DecidableEq

/-- the numeric-stats record of one column (all reductions skip `NaN`,
hence are taken over `numsOf`). -/
def makeNumStats (vs : List Value) : NumStats :=
  let xs := numsOf vs
  { mean := meanQ xs
    median := medianQ xs
    mode := modeQ xs
    svar := varQ xs
    min := (sortQ xs).getD 0 0
    max := (sortQ xs).getD (xs.length - 1) 0
    q1 := quantileQ (1 / 4) xs
    q3 := quantileQ (3 / 4) xs
    sum := xs.sum
    count := xs.length }

/-- the record built per categorical column by
`StatsEngine._get_categorical_stats`. `most_common` is `none` exactly when
`value_counts` is empty (the source then stores the strings 'N/A' and 0). -/
structure CatStats where
  unique_values : Nat
  most_common : Option Value
  most_common_count : Nat
  top_5 : List (Value × Nat)
deriving DecidableEq

/-- pandas `Series.value_counts()`: distinct non-missing values with their
multiplicities, sorted by descending count (ties keep first-occurrence
order; the source's tie order is an open ambiguity of the spec, §9). -/
def valueCounts (vs : List Value) : List (Value × Nat) :=
  let nn := nonNulls vs
  sortBy (fun a b => decide (b.2 ≤ a.2))
    ((uniqFirst [] nn).map (fun v => (v, countVal v nn)))

/-- the categorical-stats record of one column. -/
def makeCatStats (vs : List Value) : CatStats :=
  let vc := valueCounts vs
  { unique_values := (uniqFirst [] (nonNulls vs)).length
    most_common := (vc.head?).map Prod.fst
    most_common_count := ((vc.head?).map Prod.snd).getD 0
    top_5 := vc.take 5 }

/-- the overview record of `StatsEngine._get_overview`. -/
structure Overview where
  total_rows : Nat
  total_columns : Nat
  numeric_columns : Nat
  categorical_columns : Nat
  datetime_columns : Nat
deriving DecidableEq

/-- names of the columns tagged with the given type, in type-map order. -/
def colsOfType (t : CType) (types : List (String × CType)) : List String :=
  (types.filter (fun e => decide (e.2 = t))).map Prod.fst

/-- one entry of the ranked correlation list. -/
structure CorrEntry where
  col1 : String
  col2 : String
  correlation : ℚ
deriving DecidableEq

/-- the unordered pairs `(i, j)` with `i < j`, enumerated exactly as the
nested loops of `_get_correlations` (outer index ascending, inner index
ascending). -/
def colPairs : List String → List (String × String)
  | [] => []
  | x :: xs => xs.map (fun y => (x, y)) ++ colPairs xs

/-- the correlation section of the bundle: the full matrix and the top-5
list, both over the Pearson oracle `cf`. -/
structure CorrSection where
  matrix : List (String × List (String × ℚ))
  top_correlations : List CorrEntry
deriving DecidableEq

/-- `StatsEngine._get_correlations`: empty (`{}`, modelled as `none`) with
fewer than two numeric columns; otherwise all pairs, sorted by descending
absolute correlation (Python's stable sort), truncated to 5. `cf`
abstracts the Pearson coefficient `df[numeric_cols].corr()`, whose exact
real value no claim depends on. -/
def getCorrelations (cf : String → String → ℚ) (types : List (String × CType)) :
    Option CorrSection :=
  let nc := colsOfType .numeric types
  if nc.length < 2 then none
  else
    let entries := (colPairs nc).map (fun pr => CorrEntry.mk pr.1 pr.2 (cf pr.1 pr.2))
    some
      { matrix := nc.map (fun a => (a, nc.map (fun b => (b, cf a b))))
        top_correlations :=
          (sortBy (fun x y => decide (|y.correlation| ≤ |x.correlation|)) entries).take 5 }

/-- the StatisticsBundle returned by `StatsEngine.calculate_all`. -/
structure Stats where
  overview : Overview
  numeric_stats : List (String × NumStats)
  categorical_stats : List (String × CatStats)
  correlations : Option CorrSection
deriving DecidableEq

/-- `StatsEngine.calculate_all` over the cleaned table and its type map.
The per-column `try/except` of the source is not represented: on a column
of numeric dtype (resp. any column for the categorical branch) none of
the wrapped float operations raises, so the `except` branches are
unreachable. -/
def calculateAll (cf : String → String → ℚ) (df : DF)
    (types : List (String × CType)) : Stats :=
  { overview :=
      { total_rows := nrows df
        total_columns := df.length
        numeric_columns := (colsOfType .numeric types).length
        categorical_columns := (colsOfType .categorical types).length
        datetime_columns := (colsOfType .datetime types).length }
    numeric_stats := (colsOfType .numeric types).map (fun c => (c, makeNumStats (dfCol df c)))
    categorical_stats :=
      (colsOfType .categorical types).map (fun c => (c, makeCatStats (dfCol df c)))
    correlations := getCorrelations cf types }

/-- one generated insight: the structured content of the strings appended
to `self.insights` (kind of message plus the identifiers it cites). -/
inductive Insight
  | highVar (col : String)
  | consistent (col : String)
  | dominance (col : String) (most : Value)
  | uniqueVals (col : String) (uniq : Nat)
  | trend (col : String) (upward : Bool)
  | strongCorr (pos : Bool) (col1 col2 : String)
  | dataQuality (rows cols : Nat)
deriving DecidableEq

/-- `std_val > 0` from `_analyze_numeric_columns`, where the stored
`std = sqrt svar` is `NaN` for `count ≤ 1` (and `NaN > 0` is false in
Python): positive iff the count admits a defined std and the variance is
positive. -/
def stdPos (s : NumStats) : Bool := decide (2 ≤ s.count) && decide (0 < s.svar)

/-- `cv > 50` where `cv = (std_val / mean_val) * 100` (float arithmetic):
for `mean = 0` the float quotient is `+inf` (`std > 0`), hence over 50;
for `mean < 0` the quotient is negative, hence not; for `mean > 0`,
`100·std/mean > 50 ↔ std > mean/2 ↔ svar > mean²/4` (both sides positive,
squaring is monotone). Only evaluated under `stdPos`. -/
def cvOver50 (s : NumStats) : Bool :=
  decide (s.mean = 0) || (decide (0 < s.mean) && decide (s.mean ^ 2 < 4 * s.svar))

/-- `InsightEngine._analyze_numeric_columns`: one observation per
numeric-stats entry with `std > 0` — high variability when `cv > 50`,
otherwise consistent values; nothing when `std` is 0 or `NaN`. -/
def analyzeNumericColumns (stats : Stats) : List Insight :=
  stats.numeric_stats.foldr
    (fun cs acc =>
      (if stdPos cs.2 then
        (if cvOver50 cs.2 then [.highVar cs.1] else [.consistent cs.1])
      else []) ++ acc) []

/-- `percentage = (most_common_count / total_rows) * 100` from
`_analyze_categorical_columns` (ℚ division; `total_rows = 0` with a
categorical entry present would raise `ZeroDivisionError` in the source
but is unreachable from the pipeline, since a categorical column forces
at least one row). -/
def catPercentage (stats : Stats) (cs : CatStats) : ℚ :=
  ((cs.most_common_count : ℚ) / (stats.overview.total_rows : ℚ)) * 100

/-- `InsightEngine._analyze_categorical_columns`: one observation per
categorical-stats entry — dominance above 50%, otherwise the
unique-values message. -/
def analyzeCategoricalColumns (stats : Stats) : List Insight :=
  stats.categorical_stats.foldr
    (fun cs acc =>
      (if 50 < catPercentage stats cs.2 then
        [.dominance cs.1 (cs.2.most_common.getD (.str "N/A"))]
      else [.uniqueVals cs.1 cs.2.unique_values]) ++ acc) []

/-- `first_half_mean` of `_analyze_trends`: the mean of the values up to
the midpoint `len // 2`. -/
def trendFirstMean (df : DF) (col : String) : ℚ :=
  meanQ ((numsOf (dfCol df col)).take ((dfCol df col).length / 2))

/-- `second_half_mean` of `_analyze_trends`. -/
def trendSecondMean (df : DF) (col : String) : ℚ :=
  meanQ ((numsOf (dfCol df col)).drop ((dfCol df col).length / 2))

/-- `change_pct = ((second_half_mean - first_half_mean) / first_half_mean) * 100`. -/
def trendChange (df : DF) (col : String) : ℚ :=
  ((trendSecondMean df col - trendFirstMean df col) / trendFirstMean df col) * 100

/-- the trend analysis of `_analyze_trends` for one column: skip when
fewer than 3 values; skip unless every cell is numeric (a `NaN` among the
values makes both `np.mean`s `NaN` and every comparison false — a
non-numeric cell would raise, but is unreachable since analyzed columns
are numeric-typed); split at `len // 2`; emit only when the first-half
mean is positive (`if first_half_mean > 0`) and `|change_pct| > 10`. -/
def trendFor (df : DF) (col : String) : List Insight :=
  let vals := dfCol df col
  if vals.length < 3 then []
  else if !(vals.all (fun v => v.isNum)) then []
  else if 0 < trendFirstMean df col then
    if 10 < |trendChange df col| then
      [.trend col (decide (0 < trendChange df col))]
    else []
  else []

/-- `InsightEngine._analyze_trends`: the first two numeric columns in
type-map order. -/
def analyzeTrends (df : DF) (types : List (String × CType)) : List Insight :=
  ((colsOfType .numeric types).take 2).foldr (fun c acc => trendFor df c ++ acc) []

/-- `stats.get('correlations', {}).get('top_correlations', [])`. -/
def topCorrelationsOf (stats : Stats) : List CorrEntry :=
  (stats.correlations.map (fun c => c.top_correlations)).getD []

/-- `InsightEngine._analyze_correlations`: only the strongest entry of the
top list, emitted when its absolute value exceeds 0.7. -/
def analyzeCorrelations (stats : Stats) : List Insight :=
  match (topCorrelationsOf stats).head? with
  | none => []
  | some e =>
    if (7 / 10 : ℚ) < |e.correlation| then
      [.strongCorr (decide (0 < e.correlation)) e.col1 e.col2]
    else []

/-- `InsightEngine._analyze_data_quality`: the single closing observation. -/
def analyzeDataQuality (stats : Stats) : List Insight :=
  [.dataQuality stats.overview.total_rows stats.overview.total_columns]

/-- the full `self.insights` list after the five rules of
`generate_insights` have run, in rule order. -/
def generateInsightsAll (df : DF) (types : List (String × CType))
    (stats : Stats) : List Insight :=
  analyzeNumericColumns stats ++ analyzeCategoricalColumns stats ++
    analyzeTrends df types ++ analyzeCorrelations stats ++ analyzeDataQuality stats

/-- `InsightEngine.generate_insights`: `return self.insights[:7]`. -/
def generateInsights (df : DF) (types : List (String × CType))
    (stats : Stats) : List Insight :=
  (generateInsightsAll df types stats).take 7

/-- the analysis results assembled by the `/api/analyze` endpoint
(restricted to the core: report, statistics, insights; charts and the
preview are excluded collaborators). -/
structure AnalyzeResult where
  cleaning_report : Report
  statistics : Stats
  insights : List Insight
deriving DecidableEq

/-- the table-level portion of `analyze_data` in `backend/app.py` (after
the file has been read into `df`): the endpoint performs no validation of
the table before cleaning — it proceeds directly to `DataCleaner.clean`,
`StatsEngine.calculate_all` and `InsightEngine.generate_insights`. The
`Except` channel mirrors the endpoint's `HTTPException` path; within the
modelled table-level portion no raise occurs, on zero-row tables
included. -/
def analyzeData (p : String → Option ℤ) (cf : String → String → ℚ)
    (df : DF) : Except String AnalyzeResult :=
  let cl := clean p df
  let stats := calculateAll cf cl.1 cl.2.column_types
  .ok
    { cleaning_report := cl.2
      statistics := stats
      insights := generateInsights cl.1 cl.2.column_types stats }

/-- the upload-endpoint validation in `backend/app.py` (`if df.empty:
raise HTTPException(400, 'File is empty')`): a pandas frame is `empty`
iff an axis has length 0; for a table read from a delimited file that is
exactly `nrows = 0`. -/
def uploadValidate (df : DF) : Except String Unit :=
  if nrows df = 0 then .error "File is empty" else .ok ()

/-- whether an insight is the closing data-quality observation. -/
def isDQ : Insight → Bool
  | .dataQuality _ _ => true
  | _ => false

/-- a concrete instance of the datetime-parsing oracle: nothing parses
(e.g. a file whose text cells are not date-like). -/
def pNone : String → Option ℤ := fun _ => none

/-- a concrete instance of the Pearson oracle: all coefficients 0 (e.g.
exactly uncorrelated columns). -/
def cf0 : String → String → ℚ := fun _ _ => 0

/-- a table with one column and zero rows (as read from a header-only
delimited file). -/
def dfC1 : DF := [("x", ([] : List Value))]

/-- two columns over two rows; `y` has one missing cell whose median
imputation makes the two rows equal. -/
def dfC2 : DF := [("x", [.num 1, .num 1]), ("y", [.num 5, .null])]

/-- one numeric column with 3 of 4 cells missing in the original table
(75% > 50%), but only 1 of 2 missing after row deduplication (50%). -/
def dfC3 : DF := [("x", [.null, .num 1, .null, .null])]

/-- a varying `id` column next to a constant `k` column (std 0, mean 5). -/
def dfC4 : DF := [("id", [.num 1, .num 2, .num 3]), ("k", [.num 5, .num 5, .num 5])]

/-- one numeric column with a negative first-half mean (−10) and
`|change_pct| = 30 > 10`. -/
def dfC5 : DF := [("x", [.num (-10), .num (-12), .num (-2)])]

/-- four numeric and three categorical columns over two distinct rows:
rules 1 and 2 alone produce 7 insights, so the closing data-quality
observation is truncated away by the 7-cap. -/
def dfC6 : DF :=
  [("n1", [.num 1, .num 2]), ("n2", [.num 1, .num 2]),
   ("n3", [.num 1, .num 2]), ("n4", [.num 1, .num 2]),
   ("c1", [.str "a", .str "b"]), ("c2", [.str "a", .str "b"]),
   ("c3", [.str "a", .str "b"])]

/-- the type map the Cleaner produces for `dfC6`. -/
def tC6 : List (String × CType) :=
  [("n1", .numeric), ("n2", .numeric), ("n3", .numeric), ("n4", .numeric),
   ("c1", .categorical), ("c2", .categorical), ("c3", .categorical)]

/-- one column whose every cell is missing. -/
def dfC7 : DF := [("x", [.null, .null, .null])]

/-- one numeric column with a missing cell imputable by the median 6. -/
def dfC8 : DF := [("y", [.num 5, .null, .num 7])]

/-- a small two-column table (one numeric, one categorical). -/
def dfC10 : DF := [("a", [.num 1]), ("b", [.str "u"])]

@[simp] theorem num_ne_null (q : ℚ) : (Value.num q = Value.null) ↔ False := by simp

@[simp] theorem null_ne_num (q : ℚ) : (Value.null = Value.num q) ↔ False := by simp

@[simp] theorem str_ne_null (s : String) : (Value.str s = Value.null) ↔ False := by simp

@[simp] theorem null_ne_str (s : String) : (Value.null = Value.str s) ↔ False := by simp

@[simp] theorem str_ne_num (s : String) (q : ℚ) : (Value.str s = Value.num q) ↔ False := by simp

@[simp] theorem num_ne_str (s : String) (q : ℚ) : (Value.num q = Value.str s) ↔ False := by simp

theorem bmem_iff {α : Type} [DecidableEq α] (a : α) (l : List α) : bmem a l = true ↔ a ∈ l := by
  induction l with
  | nil => simp [bmem]
  | cons b bs ih =>
    simp only [bmem, Bool.or_eq_true, decide_eq_true_eq, ih, List.mem_cons]
    constructor
    · rintro (rfl | h)
      · exact Or.inl rfl
      · exact Or.inr h
    · rintro (rfl | h)
      · exact Or.inl rfl
      · exact Or.inr h

theorem getD_mem {α : Type} (l : List α) (i : Nat) (d : α) (h : i < l.length) :
    l.getD i d ∈ l := by
  induction l generalizing i with
  | nil => simp at h
  | cons b bs ih =>
    cases i with
    | zero => simp
    | succ j =>
      simp only [List.getD_cons_succ]
      exact List.mem_cons_of_mem _ (ih j (by simpa using Nat.lt_of_succ_lt_succ h))

theorem uniqFirst_subset {α : Type} [DecidableEq α] (seen : List α) (l : List α) :
    ∀ a ∈ uniqFirst seen l, a ∈ l := by
  induction l generalizing seen with
  | nil => simp [uniqFirst]
  | cons b bs ih =>
    intro a ha
    simp only [uniqFirst] at ha
    by_cases hb : bmem b seen = true
    · simp only [if_pos hb] at ha
      exact List.mem_cons_of_mem _ (ih seen a ha)
    · simp only [if_neg hb, List.mem_cons] at ha
      rcases ha with rfl | ha
      · exact List.mem_cons_self _ _
      · exact List.mem_cons_of_mem _ (ih _ a ha)

theorem keptIdx_subset_fst {α : Type} [DecidableEq α] (seen : List α) (l : List (Nat × α)) :
    ∀ i ∈ keptIdx seen l, i ∈ l.map Prod.fst := by
  induction l generalizing seen with
  | nil => simp [keptIdx]
  | cons pr rest ih =>
    obtain ⟨j, a⟩ := pr
    intro i hi
    simp only [keptIdx] at hi
    by_cases hb : bmem a seen = true
    · simp only [if_pos hb] at hi
      exact List.mem_cons_of_mem _ (ih seen i hi)
    · simp only [if_neg hb, List.mem_cons] at hi
      rcases hi with rfl | hi
      · simp
      · exact List.mem_cons_of_mem _ (ih _ i hi)

theorem length_rowsOf (df : DF) : (rowsOf df).length = nrows df := by
  simp [rowsOf]

theorem mem_keptIndices_lt (df : DF) (i : Nat) (h : i ∈ keptIndices df) : i < nrows df := by
  have h1 := keptIdx_subset_fst [] (rowsOf df).enum i h
  rw [List.enum_map_fst, List.mem_range, length_rowsOf] at h1
  exact h1

theorem Wf_of_const_length (d : DF) (n : Nat) (h : ∀ c ∈ d, c.2.length = n) : Wf d := by
  intro c hc
  cases d with
  | nil => simp at hc
  | cons c0 cs =>
    rw [h c hc, nrows]
    exact (h c0 (by simp)).symm

theorem Wf_dropDuplicates (df : DF) : Wf (dropDuplicates df) := by
  apply Wf_of_const_length _ (keptIndices df).length
  intro c hc
  simp only [dropDuplicates, List.mem_map] at hc
  obtain ⟨a, _, rfl⟩ := hc
  simp

theorem header_dropDuplicates (df : DF) : header (dropDuplicates df) = header df := by
  simp [header, dropDuplicates]

theorem countNulls_eq_zero (vs : List Value) :
    countNulls vs = 0 ↔ ∀ v ∈ vs, v.isNull = false := by
  simp [countNulls, List.length_eq_zero, List.filter_eq_nil_iff]

theorem dropDuplicates_nullFree (df : DF) (hwf : Wf df)
    (h : ∀ c ∈ df, countNulls c.2 = 0) :
    ∀ c ∈ dropDuplicates df, countNulls c.2 = 0 := by
  intro c hc
  simp only [dropDuplicates, List.mem_map] at hc
  obtain ⟨a, ha, rfl⟩ := hc
  rw [countNulls_eq_zero]
  intro v hv
  simp only [List.mem_map] at hv
  obtain ⟨i, hi, rfl⟩ := hv
  have hlt : i < a.2.length := by
    rw [hwf a ha]
    exact mem_keptIndices_lt df i hi
  exact (countNulls_eq_zero a.2).1 (h a ha) _ (getD_mem _ _ _ hlt)

theorem fillNulls_length (f : Value) (vs : List Value) :
    (fillNulls f vs).length = vs.length := by
  simp [fillNulls]

theorem countNulls_fillNulls (f : Value) (hf : f.isNull = false) (vs : List Value) :
    countNulls (fillNulls f vs) = 0 := by
  rw [countNulls_eq_zero]
  intro v hv
  simp only [fillNulls, List.mem_map] at hv
  obtain ⟨w, _, rfl⟩ := hv
  by_cases h : w.isNull = true
  · simp [h, hf]
  · simp only [Bool.not_eq_true] at h
    simp [h]

theorem modeList_mem_nonNull (vs : List Value) (v : Value) (h : v ∈ modeList vs) :
    v.isNull = false := by
  simp only [modeList, List.mem_filter] at h
  have h1 := uniqFirst_subset _ _ _ h.1
  simp only [nonNulls, List.mem_filter, Bool.not_eq_true'] at h1
  exact h1.2

theorem handleCol_noMissing (n : Nat) (c : Col) (h : countNulls c.2 = 0) :
    handleCol n c = (some c, []) := by
  simp [handleCol, h]

theorem handleCol_some_spec (n : Nat) (c c' : Col) (h : (handleCol n c).1 = some c') :
    countNulls c'.2 = 0 ∧ c'.1 = c.1 ∧ c'.2.length = c.2.length := by
  by_cases h0 : countNulls c.2 = 0
  · rw [handleCol_noMissing n c h0] at h
    cases h
    exact ⟨h0, rfl, rfl⟩
  · simp only [handleCol, if_neg h0] at h
    by_cases h1 : 50 < missingPct n c.2
    · simp [if_pos h1] at h
    · simp only [if_neg h1] at h
      by_cases h2 : isNumericDtype c.2 = true
      · simp only [if_pos h2, Option.some.injEq] at h
        subst h
        refine ⟨countNulls_fillNulls _ ?_ _, rfl, fillNulls_length _ _⟩
        rfl
      · simp only [if_neg h2] at h
        rcases hm : (modeList c.2).head? with _ | mv
        · rw [hm] at h
          simp only [Option.some.injEq] at h
          subst h
          refine ⟨countNulls_fillNulls _ ?_ _, rfl, fillNulls_length _ _⟩
          rfl
        · rw [hm] at h
          simp only [Option.some.injEq] at h
          subst h
          refine ⟨countNulls_fillNulls _ ?_ _, rfl, fillNulls_length _ _⟩
          exact modeList_mem_nonNull _ _ (List.mem_of_mem_head? hm)

theorem mem_handleMissing {df : DF} {c' : Col} (h : c' ∈ (handleMissingValues df).1) :
    ∃ c ∈ df, (handleCol (nrows df) c).1 = some c' := by
  simpa [handleMissingValues, List.mem_filterMap] using h

theorem handleMissing_mem {df : DF} {c c' : Col} (hc : c ∈ df)
    (h : (handleCol (nrows df) c).1 = some c') : c' ∈ (handleMissingValues df).1 := by
  simp only [handleMissingValues, List.mem_filterMap]
  exact ⟨c, hc, h⟩

theorem handleMissing_nullFree (df : DF) :
    ∀ c' ∈ (handleMissingValues df).1, countNulls c'.2 = 0 := by
  intro c' hc'
  obtain ⟨c, _, h⟩ := mem_handleMissing hc'
  exact (handleCol_some_spec _ _ _ h).1

theorem Wf_handleMissing (df : DF) (hwf : Wf df) : Wf (handleMissingValues df).1 := by
  apply Wf_of_const_length _ (nrows df)
  intro c' hc'
  obtain ⟨c, hc, h⟩ := mem_handleMissing hc'
  rw [(handleCol_some_spec _ _ _ h).2.2]
  exact hwf c hc

theorem parseValue_notNull (p : String → Option ℤ) (v w : Value)
    (hv : v.isNull = false) (h : parseValue p v = some w) : w.isNull = false := by
  cases v with
  | null => simp [Value.isNull] at hv
  | num q => simp [parseValue] at h
  | str s =>
    simp only [parseValue, Option.map_eq_some'] at h
    obtain ⟨d, _, rfl⟩ := h
    rfl
  | date d =>
    simp only [parseValue, Option.some.injEq] at h
    subst h
    rfl

theorem tryParseAll_spec (p : String → Option ℤ) (vs ws : List Value)
    (h : tryParseAll p vs = some ws) :
    ws.length = vs.length ∧ (countNulls vs = 0 → countNulls ws = 0) := by
  induction vs generalizing ws with
  | nil =>
    simp only [tryParseAll, Option.some.injEq] at h
    subst h
    simp
  | cons v vs ih =>
    simp only [tryParseAll] at h
    rcases hp : parseValue p v with _ | w
    · rw [hp] at h; simp at h
    · rw [hp] at h
      rcases ht : tryParseAll p vs with _ | ws0
      · rw [ht] at h; simp at h
      · rw [ht] at h
        simp only [Option.some.injEq] at h
        subst h
        obtain ⟨ihl, ihn⟩ := ih ws0 ht
        constructor
        · simp [ihl]
        · intro h0
          rw [countNulls_eq_zero] at h0 ⊢
          intro x hx
          rcases List.mem_cons.1 hx with rfl | hx
          · exact parseValue_notNull p v x (h0 v (by simp)) hp
          · exact (countNulls_eq_zero ws0).1 (ihn (by rw [countNulls_eq_zero]; intro y hy; exact h0 y (by simp [hy]))) x hx

theorem detectCol_spec (p : String → Option ℤ) (c : Col) :
    ((detectCol p c).1).1 = c.1 ∧ ((detectCol p c).2).1 = c.1 ∧
      ((detectCol p c).1).2.length = c.2.length ∧
      (countNulls c.2 = 0 → countNulls ((detectCol p c).1).2 = 0) := by
  by_cases h1 : isNumericDtype c.2 = true
  · simp [detectCol, h1]
  · by_cases h2 : isDatetimeDtype c.2 = true
    · simp [detectCol, h1, h2]
    · rcases ht : tryParseAll p c.2 with _ | ws
      · simp [detectCol, h1, h2, ht]
      · obtain ⟨hl, hn⟩ := tryParseAll_spec p _ _ ht
        refine ⟨?_, ?_, ?_, ?_⟩
        · simp [detectCol, h1, h2, ht]
        · simp [detectCol, h1, h2, ht]
        · simp [detectCol, h1, h2, ht, hl]
        · simp only [detectCol, if_neg h1, if_neg h2, ht]
          exact hn

theorem mem_detect {p : String → Option ℤ} {df : DF} {c' : Col}
    (h : c' ∈ (detectColumnTypes p df).1) : ∃ c ∈ df, (detectCol p c).1 = c' := by
  simpa [detectColumnTypes, List.mem_map] using h

theorem detect_mem {p : String → Option ℤ} {df : DF} {c : Col} (hc : c ∈ df) :
    (detectCol p c).1 ∈ (detectColumnTypes p df).1 := by
  simp only [detectColumnTypes, List.mem_map]
  exact ⟨c, hc, rfl⟩

theorem detect_nullFree (p : String → Option ℤ) (df : DF)
    (h : ∀ c ∈ df, countNulls c.2 = 0) :
    ∀ c' ∈ (detectColumnTypes p df).1, countNulls c'.2 = 0 := by
  intro c' hc'
  obtain ⟨c, hc, rfl⟩ := mem_detect hc'
  exact (detectCol_spec p c).2.2.2 (h c hc)

theorem Wf_detect (p : String → Option ℤ) (df : DF) (hwf : Wf df) :
    Wf (detectColumnTypes p df).1 := by
  apply Wf_of_const_length _ (nrows df)
  intro c' hc'
  obtain ⟨c, hc, rfl⟩ := mem_detect hc'
  rw [(detectCol_spec p c).2.2.1]
  exact hwf c hc

theorem clean_fst (p : String → Option ℤ) (df : DF) :
    (clean p df).1 = (detectColumnTypes p (handleMissingValues (dropDuplicates df)).1).1 := rfl

theorem clean_actions (p : String → Option ℤ) (df : DF) :
    (clean p df).2.actions = dedupActions df ++ (handleMissingValues (dropDuplicates df)).2 := rfl

theorem clean_types (p : String → Option ℤ) (df : DF) :
    (clean p df).2.column_types = (detectColumnTypes p (handleMissingValues (dropDuplicates df)).1).2 := rfl

theorem clean_nullFree (p : String → Option ℤ) (df : DF) :
    ∀ c ∈ (clean p df).1, countNulls c.2 = 0 := by
  rw [clean_fst]
  exact detect_nullFree p _ (handleMissing_nullFree _)

theorem Wf_clean (p : String → Option ℤ) (df : DF) : Wf (clean p df).1 := by
  rw [clean_fst]
  exact Wf_detect p _ (Wf_handleMissing _ (Wf_dropDuplicates df))

theorem dedupActions_shape (df : DF) (a : Action) (h : a ∈ dedupActions df) :
    ∃ k, a = Action.removedDuplicates k := by
  simp only [dedupActions] at h
  split at h
  · simp only [List.mem_singleton] at h
    exact ⟨_, h⟩
  · simp at h

theorem handleColActions_nil (n : Nat) (d : DF) (h : ∀ c ∈ d, countNulls c.2 = 0) :
    d.foldr (fun c acc => (handleCol n c).2 ++ acc) [] = [] := by
  induction d with
  | nil => rfl
  | cons c cs ih =>
    simp only [List.foldr_cons]
    rw [handleCol_noMissing n c (h c (by simp)), ih (fun x hx => h x (List.mem_cons_of_mem _ hx))]
    rfl

theorem handleMissing_noActions (d : DF) (h : ∀ c ∈ d, countNulls c.2 = 0) :
    (handleMissingValues d).2 = [] := by
  simp only [handleMissingValues]
  exact handleColActions_nil _ _ h

/-- C2 (amended): re-running the Cleaner on its own output produces no
column-drop and no imputation action records — no missing values remain
after the first run — but it may still produce a row-deduplication
record, because imputation and column drops can make previously distinct
rows equal: every action of the second run is a `removedDuplicates`. -/
theorem cleaner_idempotent_amended (p : String → Option ℤ) (df : DF) :
    ∀ a ∈ (clean p (clean p df).1).2.actions, ∃ k, a = Action.removedDuplicates k := by
  intro a ha
  rw [clean_actions] at ha
  rcases List.mem_append.1 ha with h | h
  · exact dedupActions_shape _ _ h
  · exfalso
    have hnf : ∀ c ∈ dropDuplicates (clean p df).1, countNulls c.2 = 0 :=
      dropDuplicates_nullFree _ (Wf_clean p df) (clean_nullFree p df)
    rw [handleMissing_noActions _ hnf] at h
    simp at h

theorem evC2a : dropDuplicates dfC2 = dfC2 := by
  norm_num [dropDuplicates, keptIndices, keptIdx, rowsOf, rowAt, nrows, List.range_succ,
    List.enum, List.enumFrom, bmem, dfC2]

theorem evC2x : handleCol 2 ("x", [Value.num 1, Value.num 1]) =
    (some ("x", [Value.num 1, Value.num 1]), []) := by
  norm_num [handleCol, countNulls, Value.isNull]

theorem evC2y : handleCol 2 ("y", [Value.num 5, Value.null]) =
    (some ("y", [Value.num 5, Value.num 5]), [.filledMedian "y" 1 5]) := by
  norm_num [handleCol, countNulls, Value.isNull, missingPct, isNumericDtype, Value.isNum,
    medianQ, numsOf, sortQ, sortBy, insertSorted, fillNulls]

theorem evC2b : handleMissingValues dfC2 =
    ([("x", [.num 1, .num 1]), ("y", [.num 5, .num 5])], [.filledMedian "y" 1 5]) := by
  simp [handleMissingValues, dfC2, nrows, evC2x, evC2y]

theorem evC2c : detectColumnTypes pNone [("x", [Value.num 1, Value.num 1]), ("y", [Value.num 5, Value.num 5])] =
    ([("x", [Value.num 1, Value.num 1]), ("y", [Value.num 5, Value.num 5])],
      [("x", CType.numeric), ("y", CType.numeric)]) := by
  simp [detectColumnTypes, detectCol, isNumericDtype, Value.isNum, Value.isNull]

theorem evC2d : (clean pNone dfC2).1 = [("x", [Value.num 1, Value.num 1]), ("y", [Value.num 5, Value.num 5])] := by
  rw [clean_fst, evC2a, evC2b]
  rw [show ([("x", [Value.num 1, Value.num 1]), ("y", [Value.num 5, Value.num 5])],
    ([Action.filledMedian "y" 1 5] : List Action)).1 = [("x", [Value.num 1, Value.num 1]), ("y", [Value.num 5, Value.num 5])] from rfl, evC2c]

theorem evC2e : dropDuplicates [("x", [Value.num 1, Value.num 1]), ("y", [Value.num 5, Value.num 5])] =
    [("x", [Value.num 1]), ("y", [Value.num 5])] := by
  norm_num [dropDuplicates, keptIndices, keptIdx, rowsOf, rowAt, nrows, List.range_succ,
    List.enum, List.enumFrom, bmem]

theorem evC2f : dedupActions [("x", [Value.num 1, Value.num 1]), ("y", [Value.num 5, Value.num 5])] =
    [.removedDuplicates 1] := by
  rw [dedupActions, evC2e]
  norm_num [nrows]

theorem evC2g1 : handleCol 1 ("x", [Value.num 1]) = (some ("x", [Value.num 1]), []) := by
  norm_num [handleCol, countNulls, Value.isNull]

theorem evC2g2 : handleCol 1 ("y", [Value.num 5]) = (some ("y", [Value.num 5]), []) := by
  norm_num [handleCol, countNulls, Value.isNull]

theorem evC2g : handleMissingValues [("x", [Value.num 1]), ("y", [Value.num 5])] =
    ([("x", [Value.num 1]), ("y", [Value.num 5])], []) := by
  simp [handleMissingValues, nrows, evC2g1, evC2g2]

/-- C2 counterexample: on `dfC2` the first run imputes the median 5 into
`y`, which makes the two rows equal; the second run therefore removes one
duplicate row and produces a nonempty action list, contradicting the
claimed idempotence. -/
theorem cleaner_idempotent_cex :
    (clean pNone (clean pNone dfC2).1).2.actions = [Action.removedDuplicates 1] ∧
      (clean pNone (clean pNone dfC2).1).2.actions ≠ [] := by
  constructor
  · rw [evC2d, clean_actions, evC2e, evC2g, evC2f]
    rfl
  · rw [evC2d, clean_actions, evC2e, evC2g, evC2f]
    simp

/-- C2 witness: the amended theorem applied at the concrete input `dfC2`,
whose second cleaning run removes exactly one duplicate row. -/
theorem cleaner_idempotent_amended_witness :
    ∃ k, Action.removedDuplicates 1 = Action.removedDuplicates k :=
  cleaner_idempotent_amended pNone dfC2 (Action.removedDuplicates 1)
    (by rw [evC2d, clean_actions, evC2e, evC2g, evC2f]; simp)

theorem le_foldr_max (a : Nat) (l : List Nat) (h : a ∈ l) : a ≤ l.foldr Nat.max 0 := by
  induction l with
  | nil => simp at h
  | cons b bs ih =>
    rcases List.mem_cons.1 h with rfl | h
    · exact Nat.le_max_left _ _
    · exact le_trans (ih h) (Nat.le_max_right _ _)

theorem foldr_max_mem (l : List Nat) (h : l ≠ []) :
    l.foldr Nat.max 0 ∈ l ∨ l.foldr Nat.max 0 = 0 := by
  induction l with
  | nil => exact absurd rfl h
  | cons a bs ih =>
    rcases eq_or_ne bs [] with rfl | hbs
    · simp
    · simp only [List.foldr_cons]
      rcases ih hbs with hm | h0
      · rcases Nat.le_total a (bs.foldr Nat.max 0) with hle | hle
        · have heq : Nat.max a (bs.foldr Nat.max 0) = bs.foldr Nat.max 0 :=
            Nat.max_eq_right hle
          rw [heq]
          exact Or.inl (List.mem_cons_of_mem _ hm)
        · have heq : Nat.max a (bs.foldr Nat.max 0) = a := Nat.max_eq_left hle
          rw [heq]
          exact Or.inl (List.mem_cons_self _ _)
      · have heq : Nat.max a (bs.foldr Nat.max 0) = a := by
          rw [h0]
          exact Nat.max_eq_left (Nat.zero_le a)
        rw [heq]
        exact Or.inl (List.mem_cons_self _ _)

theorem countVal_pos (v : Value) (vs : List Value) (h : v ∈ vs) : 1 ≤ countVal v vs := by
  have : v ∈ vs.filter (fun w => decide (w = v)) := by
    rw [List.mem_filter]
    exact ⟨h, by simp⟩
  have hne : vs.filter (fun w => decide (w = v)) ≠ [] := List.ne_nil_of_mem this
  have hpos := List.length_pos.2 hne
  simp only [countVal]
  omega

theorem mem_uniqFirst {α : Type} [DecidableEq α] (a : α) (l : List α) (seen : List α)
    (h : a ∈ l) (hs : bmem a seen = false) : a ∈ uniqFirst seen l := by
  induction l generalizing seen with
  | nil => simp at h
  | cons b bs ih =>
    by_cases hab : a = b
    · subst hab
      simp only [uniqFirst]
      rw [if_neg (by simp [hs])]
      exact List.mem_cons_self _ _
    · rcases List.mem_cons.1 h with rfl | h
      · exact absurd rfl hab
      · simp only [uniqFirst]
        by_cases hb : bmem b seen = true
        · rw [if_pos hb]
          exact ih seen h hs
        · rw [if_neg hb]
          refine List.mem_cons_of_mem _ (ih (b :: seen) h ?_)
          simp only [bmem, Bool.or_eq_false_iff, decide_eq_false_iff_not]
          exact ⟨fun hba => hab hba.symm, hs⟩

theorem modeList_ne_nil (vs : List Value) (h : nonNulls vs ≠ []) : modeList vs ≠ [] := by
  rcases List.exists_mem_of_ne_nil _ h with ⟨v0, hv0⟩
  have hcounts : (nonNulls vs).map (fun v => countVal v (nonNulls vs)) ≠ [] := by
    simp [h]
  have hmax := foldr_max_mem _ hcounts
  have hv0c : countVal v0 (nonNulls vs) ∈ (nonNulls vs).map (fun v => countVal v (nonNulls vs)) :=
    List.mem_map_of_mem _ hv0
  rcases hmax with hm | h0
  · simp only [List.mem_map] at hm
    obtain ⟨v, hv, hveq⟩ := hm
    have hvm : v ∈ modeList vs := by
      simp only [modeList, List.mem_filter]
      refine ⟨mem_uniqFirst v _ [] hv rfl, ?_⟩
      simp [maxCount, hveq]
    exact List.ne_nil_of_mem hvm
  · exfalso
    have h1 := countVal_pos v0 _ hv0
    have h2 := le_foldr_max _ _ hv0c
    omega

theorem countNulls_eq_length (vs : List Value) (hall : ∀ v ∈ vs, v.isNull = true) :
    countNulls vs = vs.length := by
  simp only [countNulls]
  rw [List.filter_eq_self.2 hall]

theorem nonNulls_nil_countNulls (vs : List Value) (h : nonNulls vs = []) :
    countNulls vs = vs.length := by
  refine countNulls_eq_length vs ?_
  intro a ha
  have := List.filter_eq_nil_iff.1 h a ha
  simpa using this

theorem handleCol_drop (k : Nat) (c : Col) (h0 : countNulls c.2 ≠ 0)
    (h50 : 50 < missingPct k c.2) :
    handleCol k c = (none, [.droppedColumn c.1 (missingPct k c.2)]) := by
  simp [handleCol, h0, h50]

theorem missingPct_all (k : Nat) (vs : List Value) (hk : k ≠ 0)
    (hcnt : countNulls vs = k) : missingPct k vs = 100 := by
  rw [missingPct, hcnt]
  rw [div_self (by exact_mod_cast hk)]
  norm_num

theorem handleCol_no_unknown (k : Nat) (c : Col) (hlen : c.2.length = k) :
    ∀ m j, Action.filledUnknown m j ∉ (handleCol k c).2 := by
  intro m j
  by_cases h0 : countNulls c.2 = 0
  · rw [handleCol_noMissing _ _ h0]
    simp
  · by_cases h1 : 50 < missingPct k c.2
    · rw [handleCol_drop _ _ h0 h1]
      simp
    · simp only [handleCol, if_neg h0, if_neg h1]
      by_cases h2 : isNumericDtype c.2 = true
      · simp [h2]
      · simp only [h2, if_false, Bool.false_eq_true]
        rcases hm : (modeList c.2).head? with _ | mv
        · exfalso
          have hnil : modeList c.2 = [] := by
            cases hml : modeList c.2 with
            | nil => rfl
            | cons a as => rw [hml] at hm; simp at hm
          have hnn : nonNulls c.2 = [] := by
            by_contra hne
            exact modeList_ne_nil _ hne hnil
          have hcnt : countNulls c.2 = k := by
            rw [nonNulls_nil_countNulls _ hnn, hlen]
          have hk : k ≠ 0 := by
            intro hk0
            rw [hk0] at hcnt
            exact h0 hcnt
          exact h1 (by rw [missingPct_all k c.2 hk hcnt]; norm_num)
        · simp [hm]

theorem handleColActions_mem_of (n : Nat) (d : DF) (c : Col) (a : Action) (hc : c ∈ d)
    (ha : a ∈ (handleCol n c).2) :
    a ∈ d.foldr (fun x acc => (handleCol n x).2 ++ acc) [] := by
  induction d with
  | nil => simp at hc
  | cons c0 cs ih =>
    simp only [List.foldr_cons, List.mem_append]
    rcases List.mem_cons.1 hc with rfl | hc
    · exact Or.inl ha
    · exact Or.inr (ih hc)

theorem handleColActions_spec (n : Nat) (d : DF) (a : Action)
    (ha : a ∈ d.foldr (fun x acc => (handleCol n x).2 ++ acc) []) :
    ∃ c ∈ d, a ∈ (handleCol n c).2 := by
  induction d with
  | nil => simp at ha
  | cons c0 cs ih =>
    simp only [List.foldr_cons, List.mem_append] at ha
    rcases ha with h | h
    · exact ⟨c0, by simp, h⟩
    · obtain ⟨c, hc, hac⟩ := ih h
      exact ⟨c, List.mem_cons_of_mem _ hc, hac⟩

theorem keptIndices_ne_nil (df : DF) (h : 0 < nrows df) : keptIndices df ≠ [] := by
  have hlen : (rowsOf df).length = nrows df := length_rowsOf df
  cases hr : rowsOf df with
  | nil => rw [hr] at hlen; simp at hlen; omega
  | cons r rs =>
    simp only [keptIndices, hr, List.enum_cons]
    simp [keptIdx, bmem]

theorem getD_null_of_all_null (vs : List Value) (i : Nat)
    (hall : ∀ v ∈ vs, v.isNull = true) : (vs.getD i Value.null).isNull = true := by
  by_cases h : i < vs.length
  · exact hall _ (getD_mem _ _ _ h)
  · rw [List.getD_eq_default _ _ (by omega)]
    rfl

/-- C7 (amended): a column whose every value is missing is dropped
entirely by the Cleaner — its missing percentage is 100, over the 50
threshold — and the run completes without failing; the literal sentinel
fill is never applied to it (the "Unknown" branch is unreachable: an
empty mode means an all-missing column, which is always dropped first). -/
theorem cleaner_all_missing_dropped (p : String → Option ℤ) (df : DF) (n : String)
    (vs : List Value) (hwf : Wf df) (hmem : (n, vs) ∈ df) (hne : vs ≠ [])
    (hall : ∀ v ∈ vs, v.isNull = true) :
    Action.droppedColumn n 100 ∈ (clean p df).2.actions ∧
      ∀ m j, Action.filledUnknown m j ∉ (clean p df).2.actions := by
  have hnpos : 0 < nrows df := by
    rw [← hwf _ hmem]
    exact List.length_pos.2 hne
  set vs1 := (keptIndices df).map (fun i => vs.getD i Value.null) with hvs1
  have hmem1 : (n, vs1) ∈ dropDuplicates df := by
    simp only [dropDuplicates, List.mem_map]
    exact ⟨(n, vs), hmem, rfl⟩
  have hall1 : ∀ v ∈ vs1, v.isNull = true := by
    intro v hv
    simp only [hvs1, List.mem_map] at hv
    obtain ⟨i, _, rfl⟩ := hv
    exact getD_null_of_all_null vs i hall
  have hne1 : vs1 ≠ [] := by
    simp only [hvs1, ne_eq, List.map_eq_nil_iff]
    exact keptIndices_ne_nil df hnpos
  have hlen1 : vs1.length = nrows (dropDuplicates df) :=
    Wf_dropDuplicates df _ hmem1
  have hcnt1 : countNulls vs1 = nrows (dropDuplicates df) := by
    rw [countNulls_eq_length _ hall1, hlen1]
  have hk : nrows (dropDuplicates df) ≠ 0 := by
    rw [← hlen1]
    exact fun h => hne1 (List.length_eq_zero.1 h)
  have hpct : missingPct (nrows (dropDuplicates df)) vs1 = 100 :=
    missingPct_all _ _ hk hcnt1
  have hcnt0 : countNulls vs1 ≠ 0 := by
    rw [hcnt1]; exact hk
  have hdrop := handleCol_drop (nrows (dropDuplicates df)) (n, vs1) hcnt0
    (by rw [hpct]; norm_num)
  constructor
  · rw [clean_actions, List.mem_append]
    right
    show Action.droppedColumn n 100 ∈ (handleMissingValues (dropDuplicates df)).2
    simp only [handleMissingValues]
    refine handleColActions_mem_of _ _ (n, vs1) _ hmem1 ?_
    rw [hdrop]
    simp [hpct]
  · intro m j hmj
    rw [clean_actions, List.mem_append] at hmj
    rcases hmj with h | h
    · obtain ⟨k, hk⟩ := dedupActions_shape _ _ h
      simp at hk
    · simp only [handleMissingValues] at h
      obtain ⟨c, hc, hac⟩ := handleColActions_spec _ _ _ h
      exact handleCol_no_unknown _ c (Wf_dropDuplicates df c hc) m j hac

/-- C7 witness: the theorem applied to the concrete all-missing column
`dfC7`. -/
theorem cleaner_all_missing_dropped_witness :
    Action.droppedColumn "x" 100 ∈ (clean pNone dfC7).2.actions ∧
      ∀ m j, Action.filledUnknown m j ∉ (clean pNone dfC7).2.actions := by
  refine cleaner_all_missing_dropped pNone dfC7 "x" [Value.null, Value.null, Value.null]
    ?_ ?_ ?_ ?_
  · intro c hc
    simp only [dfC7, List.mem_singleton] at hc
    subst hc
    rfl
  · simp [dfC7]
  · simp
  · intro v hv
    simp only [List.mem_cons] at hv
    rcases hv with rfl | rfl | rfl | h
    · rfl
    · rfl
    · rfl
    · simp at h

theorem evC7a : dropDuplicates dfC7 = [("x", [Value.null])] := by
  norm_num [dropDuplicates, keptIndices, keptIdx, rowsOf, rowAt, nrows, List.range_succ,
    List.enum, List.enumFrom, bmem, dfC7]

theorem evC7b : handleCol 1 ("x", [Value.null]) = (none, [.droppedColumn "x" 100]) := by
  norm_num [handleCol, countNulls, Value.isNull, missingPct]

theorem evC7c : handleMissingValues [("x", [Value.null])] = ([], [.droppedColumn "x" 100]) := by
  simp [handleMissingValues, nrows, evC7b]

theorem evC7d : dedupActions dfC7 = [.removedDuplicates 2] := by
  rw [dedupActions, evC7a]
  norm_num [nrows, dfC7]

/-- C7 counterexample: on the all-missing column `dfC7` the Cleaner
deduplicates the three identical null rows and then drops the column
(100% missing); no sentinel "Unknown" fill action is recorded and the
column is gone from the output, contradicting the claimed sentinel-fill
behavior. -/
theorem cleaner_all_missing_cex :
    (clean pNone dfC7).2.actions = [Action.removedDuplicates 2, Action.droppedColumn "x" 100] ∧
      header (clean pNone dfC7).1 = [] := by
  constructor
  · rw [clean_actions, evC7a, evC7c, evC7d]
    rfl
  · rw [clean_fst, evC7a, evC7c]
    rfl

theorem nodup_keys_eq {α β : Type} (l : List (α × β)) (a b : α × β)
    (hnd : (l.map Prod.fst).Nodup) (ha : a ∈ l) (hb : b ∈ l) (hab : a.1 = b.1) : a = b := by
  induction l with
  | nil => simp at ha
  | cons c cs ih =>
    rw [List.map_cons, List.nodup_cons] at hnd
    rcases List.mem_cons.1 ha with rfl | ha' <;> rcases List.mem_cons.1 hb with rfl | hb'
    · rfl
    · exfalso
      apply hnd.1
      rw [hab]
      exact List.mem_map_of_mem Prod.fst hb'
    · exfalso
      apply hnd.1
      rw [← hab]
      exact List.mem_map_of_mem Prod.fst ha'
    · exact ih hnd.2 ha' hb'

theorem missingPct_zero (k : Nat) (vs : List Value) (h : countNulls vs = 0) :
    missingPct k vs = 0 := by
  simp [missingPct, h]

theorem detect_types_keys (p : String → Option ℤ) (d : DF) :
    ((detectColumnTypes p d).2).map Prod.fst = header d := by
  simp only [detectColumnTypes, List.map_map, header]
  refine List.map_congr_left ?_
  intro c _
  exact (detectCol_spec p c).2.1

theorem detect_header (p : String → Option ℤ) (d : DF) :
    header (detectColumnTypes p d).1 = header d := by
  simp only [detectColumnTypes, header, List.map_map]
  refine List.map_congr_left ?_
  intro c _
  exact (detectCol_spec p c).1

/-- C3 (amended): the missingness invariant holds for the missing
fraction computed after row deduplication — the source computes
`missing_pct` against `len(self.df)` after `drop_duplicates` has run:
every column of the deduplicated table whose missing percentage exceeds
50 is absent from the cleaned type map. The fraction measured on the
original input does not govern the drop (counterexample `dfC3`). -/
theorem missingness_invariant_amended (p : String → Option ℤ) (df : DF) (n : String)
    (vs : List Value) (hnd : (header df).Nodup)
    (hmem : (n, vs) ∈ dropDuplicates df)
    (hpct : 50 < missingPct (nrows (dropDuplicates df)) vs) :
    n ∉ ((clean p df).2.column_types).map Prod.fst := by
  intro hin
  rw [clean_types, detect_types_keys] at hin
  simp only [header, List.mem_map] at hin
  obtain ⟨c', hc', hc'n⟩ := hin
  obtain ⟨c, hc, hcol⟩ := mem_handleMissing hc'
  have hcn : c.1 = n := by
    rw [← hc'n]
    exact ((handleCol_some_spec _ _ _ hcol).2.1).symm
  have hnd1 : ((dropDuplicates df).map Prod.fst).Nodup := by
    have h := hnd
    rw [← header_dropDuplicates df] at h
    exact h
  have hceq : c = (n, vs) := nodup_keys_eq _ c (n, vs) hnd1 hc hmem (by rw [hcn])
  subst hceq
  have hcnt : countNulls vs ≠ 0 := by
    intro h0
    rw [missingPct_zero _ _ h0] at hpct
    norm_num at hpct
  rw [handleCol_drop (nrows (dropDuplicates df)) (n, vs) hcnt hpct] at hcol
  simp at hcol

/-- C3 witness: the amended theorem applied to `dfC7`, whose single
column is 100% missing after deduplication and is indeed absent from the
cleaned type map. -/
theorem missingness_invariant_amended_witness :
    "x" ∉ ((clean pNone dfC7).2.column_types).map Prod.fst := by
  refine missingness_invariant_amended pNone dfC7 "x" [Value.null] ?_ ?_ ?_
  · simp [header, dfC7]
  · rw [evC7a]
    simp
  · rw [evC7a]
    norm_num [missingPct, countNulls, nrows, Value.isNull]

theorem evC3a : dropDuplicates dfC3 = [("x", [Value.null, Value.num 1])] := by
  norm_num [dropDuplicates, keptIndices, keptIdx, rowsOf, rowAt, nrows, List.range_succ,
    List.enum, List.enumFrom, bmem, dfC3]

theorem evC3b : handleCol 2 ("x", [Value.null, Value.num 1]) =
    (some ("x", [Value.num 1, Value.num 1]), [.filledMedian "x" 1 1]) := by
  norm_num [handleCol, countNulls, Value.isNull, missingPct, isNumericDtype, Value.isNum,
    medianQ, numsOf, sortQ, sortBy, insertSorted, fillNulls]

theorem evC3c : handleMissingValues [("x", [Value.null, Value.num 1])] =
    ([("x", [Value.num 1, Value.num 1])], [.filledMedian "x" 1 1]) := by
  simp [handleMissingValues, nrows, evC3b]

theorem evC3d : detectColumnTypes pNone [("x", [Value.num 1, Value.num 1])] =
    ([("x", [Value.num 1, Value.num 1])], [("x", CType.numeric)]) := by
  simp [detectColumnTypes, detectCol, isNumericDtype, Value.isNum, Value.isNull]

/-- C3 counterexample: in `dfC3` the column `x` has missing fraction 3/4
(75% > 50%) in the original input, yet after deduplication only 1 of 2
cells is missing (50%), so the column is imputed and kept: its name is
present in the cleaned type map, contradicting the claim. -/
theorem missingness_invariant_cex :
    ("x", [Value.null, Value.num 1, Value.null, Value.null]) ∈ dfC3 ∧
      50 < missingPct (nrows dfC3) [Value.null, Value.num 1, Value.null, Value.null] ∧
      "x" ∈ ((clean pNone dfC3).2.column_types).map Prod.fst := by
  refine ⟨by simp [dfC3], ?_, ?_⟩
  · norm_num [missingPct, countNulls, nrows, dfC3, Value.isNull]
  · rw [clean_types, evC3a, evC3c, evC3d]
    simp

theorem handleCol_fill (k : Nat) (c : Col) (h0 : countNulls c.2 ≠ 0)
    (h50 : ¬ 50 < missingPct k c.2) (hnum : isNumericDtype c.2 = true) :
    handleCol k c =
      (some (c.1, fillNulls (Value.num (medianQ (numsOf c.2))) c.2),
        [.filledMedian c.1 (countNulls c.2) (medianQ (numsOf c.2))]) := by
  simp [handleCol, h0, h50, hnum]

theorem isNumericDtype_fillNulls (vs : List Value) (m : ℚ)
    (h : isNumericDtype vs = true) :
    isNumericDtype (fillNulls (Value.num m) vs) = true := by
  simp only [isNumericDtype, List.all_eq_true] at h ⊢
  intro w hw
  simp only [fillNulls, List.mem_map] at hw
  obtain ⟨v, hv, rfl⟩ := hw
  by_cases hn : v.isNull = true
  · simp only [hn, if_true]
    rfl
  · simp only [Bool.not_eq_true] at hn
    simp only [hn, if_false, Bool.false_eq_true]
    have := h v hv
    rw [hn] at this
    simpa using this

theorem detectCol_numeric (p : String → Option ℤ) (c : Col)
    (h : isNumericDtype c.2 = true) : detectCol p c = (c, (c.1, CType.numeric)) := by
  simp [detectCol, h]

theorem fillNulls_getD (f : Value) (vs : List Value) (i : Nat) (hi : i < vs.length)
    (hn : (vs.getD i Value.null).isNull = true) :
    (fillNulls f vs).getD i Value.null = f := by
  induction vs generalizing i with
  | nil => simp at hi
  | cons v vs ih =>
    cases i with
    | zero =>
      simp only [List.getD_cons_zero] at hn
      simp [fillNulls, hn]
    | succ j =>
      simp only [List.getD_cons_succ] at hn
      simp only [fillNulls, List.map_cons, List.getD_cons_succ]
      exact ih j (by simpa using Nat.lt_of_succ_lt_succ hi) hn

/-- C8: for every numeric-dtype column with missing cells that is not
dropped (missing percentage at most 50), the cleaned table contains the
column with every missing cell replaced by the median computed over the
column's non-null values in the pre-imputation (post-deduplication)
state. -/
theorem imputation_median_correct (p : String → Option ℤ) (df : DF) (n : String)
    (vs : List Value) (hmem : (n, vs) ∈ dropDuplicates df)
    (h0 : countNulls vs ≠ 0)
    (h50 : missingPct (nrows (dropDuplicates df)) vs ≤ 50)
    (hnum : isNumericDtype vs = true) :
    (n, fillNulls (Value.num (medianQ (numsOf vs))) vs) ∈ (clean p df).1 ∧
      ∀ i, i < vs.length → (vs.getD i Value.null).isNull = true →
        (fillNulls (Value.num (medianQ (numsOf vs))) vs).getD i Value.null =
          Value.num (medianQ (numsOf vs)) := by
  constructor
  · have hfill := handleCol_fill (nrows (dropDuplicates df)) (n, vs) h0
      (not_lt.2 h50) hnum
    have hmem2 : (n, fillNulls (Value.num (medianQ (numsOf vs))) vs) ∈
        (handleMissingValues (dropDuplicates df)).1 :=
      handleMissing_mem hmem (by rw [hfill])
    have hnum2 : isNumericDtype (fillNulls (Value.num (medianQ (numsOf vs))) vs) = true :=
      isNumericDtype_fillNulls vs _ hnum
    rw [clean_fst]
    have := detect_mem (p := p) hmem2
    rwa [detectCol_numeric p _ hnum2] at this
  · intro i hi hn
    exact fillNulls_getD _ vs i hi hn

theorem evC8a : dropDuplicates dfC8 = dfC8 := by
  norm_num [dropDuplicates, keptIndices, keptIdx, rowsOf, rowAt, nrows, List.range_succ,
    List.enum, List.enumFrom, bmem, dfC8]

/-- C8 witness: the theorem applied to `dfC8`, whose missing cell is
imputed with the median 6 of the non-null values 5 and 7. -/
theorem imputation_median_correct_witness :
    medianQ (numsOf [Value.num 5, Value.null, Value.num 7]) = 6 ∧
      (("y", fillNulls (Value.num (medianQ (numsOf [Value.num 5, Value.null, Value.num 7])))
          [Value.num 5, Value.null, Value.num 7]) ∈ (clean pNone dfC8).1 ∧
        ∀ i, i < ([Value.num 5, Value.null, Value.num 7] : List Value).length →
          (([Value.num 5, Value.null, Value.num 7] : List Value).getD i Value.null).isNull = true →
          (fillNulls (Value.num (medianQ (numsOf [Value.num 5, Value.null, Value.num 7])))
            [Value.num 5, Value.null, Value.num 7]).getD i Value.null =
            Value.num (medianQ (numsOf [Value.num 5, Value.null, Value.num 7]))) := by
  constructor
  · norm_num [medianQ, numsOf, sortQ, sortBy, insertSorted]
  · refine imputation_median_correct pNone dfC8 "y" [Value.num 5, Value.null, Value.num 7]
      ?_ ?_ ?_ ?_
    · rw [evC8a]
      simp [dfC8]
    · norm_num [countNulls, Value.isNull]
    · rw [evC8a]
      norm_num [missingPct, countNulls, nrows, dfC8, Value.isNull]
    · simp [isNumericDtype, Value.isNum, Value.isNull]

theorem header_filterMap_sublist (k : Nat) (d : DF) :
    List.Sublist ((d.filterMap (fun c => (handleCol k c).1)).map Prod.fst) (d.map Prod.fst) := by
  induction d with
  | nil => simp
  | cons c cs ih =>
    rcases hc : (handleCol k c).1 with _ | c'
    · simp only [List.filterMap_cons, hc, List.map_cons]
      exact ih.trans (List.sublist_cons_self _ _)
    · simp only [List.filterMap_cons, hc, List.map_cons]
      rw [(handleCol_some_spec k c c' hc).2.1]
      exact List.Sublist.cons₂ _ ih

theorem header_handleMissing_sublist (d : DF) :
    List.Sublist (header (handleMissingValues d).1) (header d) :=
  header_filterMap_sublist (nrows d) d

theorem clean_types_keys (p : String → Option ℤ) (df : DF) :
    ((clean p df).2.column_types).map Prod.fst = header (clean p df).1 := by
  rw [clean_types, clean_fst, detect_types_keys, detect_header]

theorem clean_header_nodup (p : String → Option ℤ) (df : DF)
    (h : (header df).Nodup) : (header (clean p df).1).Nodup := by
  rw [clean_fst, detect_header]
  have hsub := header_handleMissing_sublist (dropDuplicates df)
  rw [header_dropDuplicates] at hsub
  exact h.sublist hsub

/-- C10: after every Cleaner invocation on a table with distinct column
names, the type map's key list equals the cleaned table's column-name
list exactly (same names, same order — no extra and no missing keys),
and each surviving column name carries exactly one type (a `CType`, i.e.
one of numeric, categorical, datetime). -/
theorem type_map_keys_exact (p : String → Option ℤ) (df : DF)
    (hnd : (header df).Nodup) :
    ((clean p df).2.column_types).map Prod.fst = header (clean p df).1 ∧
      ∀ n ∈ header (clean p df).1, ∃! t, (n, t) ∈ (clean p df).2.column_types := by
  refine ⟨clean_types_keys p df, ?_⟩
  intro n hn
  have hkeys := clean_types_keys p df
  have hnd2 : (((clean p df).2.column_types).map Prod.fst).Nodup := by
    rw [hkeys]
    exact clean_header_nodup p df hnd
  rw [← hkeys] at hn
  simp only [List.mem_map] at hn
  obtain ⟨⟨m, t⟩, hmem, hfst⟩ := hn
  simp only at hfst
  subst hfst
  refine ⟨t, hmem, ?_⟩
  intro t' hmem'
  have heq := nodup_keys_eq _ (m, t') (m, t) hnd2 hmem' hmem rfl
  simpa using heq

/-- C10 witness: the theorem applied to the two-column table `dfC10`. -/
theorem type_map_keys_exact_witness :
    ((clean pNone dfC10).2.column_types).map Prod.fst = header (clean pNone dfC10).1 ∧
      ∀ n ∈ header (clean pNone dfC10).1, ∃! t, (n, t) ∈ (clean pNone dfC10).2.column_types :=
  type_map_keys_exact pNone dfC10 (by simp [header, dfC10])

theorem length_insertSorted {α : Type} (le : α → α → Bool) (a : α) (l : List α) :
    (insertSorted le a l).length = l.length + 1 := by
  induction l with
  | nil => rfl
  | cons b bs ih =>
    simp only [insertSorted]
    split
    · simp
    · simp [ih]

theorem length_sortBy {α : Type} (le : α → α → Bool) (l : List α) :
    (sortBy le l).length = l.length := by
  induction l with
  | nil => rfl
  | cons a as ih => simp [sortBy, length_insertSorted, ih]

theorem length_colPairs (l : List String) :
    (colPairs l).length = l.length.choose 2 := by
  induction l with
  | nil => rfl
  | cons x xs ih =>
    simp only [colPairs, List.length_append, List.length_map, ih, List.length_cons]
    rw [Nat.choose_succ_succ, Nat.choose_one_right]

/-- C9: the ranked top-correlations list of the statistics bundle has
length `min 5 (k choose 2)`, where `k` is the number of Numeric columns
of the type map; moreover the correlation section is absent (the
source's empty dict) exactly when `k < 2`. -/
theorem correlation_count (cf : String → String → ℚ) (df : DF)
    (types : List (String × CType)) :
    (topCorrelationsOf (calculateAll cf df types)).length =
      min 5 (((colsOfType .numeric types).length).choose 2) ∧
      ((calculateAll cf df types).correlations = none ↔
        (colsOfType .numeric types).length < 2) := by
  have hcorr : (calculateAll cf df types).correlations = getCorrelations cf types := rfl
  by_cases h : (colsOfType .numeric types).length < 2
  · have hnone : getCorrelations cf types = none := by
      simp [getCorrelations, h]
    constructor
    · rw [topCorrelationsOf, hcorr, hnone]
      rw [Nat.choose_eq_zero_of_lt h]
      simp
    · rw [hcorr, hnone]
      simp [h]
  · have hsome : getCorrelations cf types =
        some
          { matrix := (colsOfType .numeric types).map
              (fun a => (a, (colsOfType .numeric types).map (fun b => (b, cf a b))))
            top_correlations :=
              (sortBy (fun x y => decide (|y.correlation| ≤ |x.correlation|))
                ((colPairs (colsOfType .numeric types)).map
                  (fun pr => CorrEntry.mk pr.1 pr.2 (cf pr.1 pr.2)))).take 5 } := by
      simp [getCorrelations, h]
    constructor
    · rw [topCorrelationsOf, hcorr, hsome]
      simp only [Option.map_some', Option.getD_some]
      rw [List.length_take, length_sortBy, List.length_map, length_colPairs]
    · rw [hcorr, hsome]
      simp [h]

theorem mem_ruleFoldr {β : Type} (f : β → List Insight) (l : List β) (i : Insight) :
    i ∈ l.foldr (fun x acc => f x ++ acc) [] ↔ ∃ x ∈ l, i ∈ f x := by
  induction l with
  | nil => simp
  | cons a as ih =>
    simp only [List.foldr_cons, List.mem_append, ih, List.mem_cons]
    constructor
    · rintro (h | ⟨x, hx, hmem⟩)
      · exact ⟨a, Or.inl rfl, h⟩
      · exact ⟨x, Or.inr hx, hmem⟩
    · rintro ⟨x, rfl | hx, hmem⟩
      · exact Or.inl hmem
      · exact Or.inr ⟨x, hx, hmem⟩

theorem mem_analyzeNumeric (stats : Stats) (i : Insight) :
    i ∈ analyzeNumericColumns stats ↔
      ∃ cs ∈ stats.numeric_stats, stdPos cs.2 = true ∧
        i = (if cvOver50 cs.2 = true then Insight.highVar cs.1 else Insight.consistent cs.1) := by
  unfold analyzeNumericColumns
  rw [mem_ruleFoldr]
  constructor
  · rintro ⟨x, hx, hmem⟩
    by_cases h1 : stdPos x.2 = true
    · rw [if_pos h1] at hmem
      refine ⟨x, hx, h1, ?_⟩
      by_cases h2 : cvOver50 x.2 = true
      · rw [if_pos h2] at hmem ⊢
        simpa using hmem
      · rw [if_neg h2] at hmem ⊢
        simpa using hmem
    · rw [if_neg h1] at hmem
      simp at hmem
  · rintro ⟨x, hx, h1, rfl⟩
    refine ⟨x, hx, ?_⟩
    rw [if_pos h1]
    by_cases h2 : cvOver50 x.2 = true
    · rw [if_pos h2, if_pos h2]
      simp
    · rw [if_neg h2, if_neg h2]
      simp

theorem trendFor_shape (df : DF) (c : String) (i : Insight) (h : i ∈ trendFor df c) :
    ∃ b, i = Insight.trend c b := by
  simp only [trendFor] at h
  by_cases h1 : (dfCol df c).length < 3
  · rw [if_pos h1] at h
    simp at h
  · rw [if_neg h1] at h
    by_cases h2 : (dfCol df c).all Value.isNum = true
    · rw [if_neg (by simp [h2])] at h
      by_cases h3 : 0 < trendFirstMean df c
      · rw [if_pos h3] at h
        by_cases h4 : 10 < |trendChange df c|
        · rw [if_pos h4] at h
          simp only [List.mem_singleton] at h
          exact ⟨_, h⟩
        · rw [if_neg h4] at h
          simp at h
      · rw [if_neg h3] at h
        simp at h
    · rw [if_pos (by simp [h2])] at h
      simp at h

theorem analyzeTrends_shape (df : DF) (types : List (String × CType)) (i : Insight)
    (h : i ∈ analyzeTrends df types) : ∃ c b, i = Insight.trend c b := by
  unfold analyzeTrends at h
  rw [mem_ruleFoldr] at h
  obtain ⟨c, _, hmem⟩ := h
  obtain ⟨b, rfl⟩ := trendFor_shape df c i hmem
  exact ⟨c, b, rfl⟩

theorem analyzeCat_shape (stats : Stats) (i : Insight)
    (h : i ∈ analyzeCategoricalColumns stats) :
    (∃ c v, i = Insight.dominance c v) ∨ ∃ c u, i = Insight.uniqueVals c u := by
  unfold analyzeCategoricalColumns at h
  rw [mem_ruleFoldr] at h
  obtain ⟨x, _, hmem⟩ := h
  by_cases h1 : 50 < catPercentage stats x.2
  · rw [if_pos h1] at hmem
    simp only [List.mem_singleton] at hmem
    exact Or.inl ⟨_, _, hmem⟩
  · rw [if_neg h1] at hmem
    simp only [List.mem_singleton] at hmem
    exact Or.inr ⟨_, _, hmem⟩

theorem analyzeCorr_shape (stats : Stats) (i : Insight)
    (h : i ∈ analyzeCorrelations stats) : ∃ b c1 c2, i = Insight.strongCorr b c1 c2 := by
  unfold analyzeCorrelations at h
  cases hh : (topCorrelationsOf stats).head? with
  | none =>
    simp only [hh] at h
    simp at h
  | some e =>
    simp only [hh] at h
    by_cases h1 : (7 / 10 : ℚ) < |e.correlation|
    · rw [if_pos h1] at h
      simp only [List.mem_singleton] at h
      exact ⟨_, _, _, h⟩
    · rw [if_neg h1] at h
      simp at h

theorem analyzeDQ_shape (stats : Stats) (i : Insight)
    (h : i ∈ analyzeDataQuality stats) : ∃ r c, i = Insight.dataQuality r c := by
  simp only [analyzeDataQuality, List.mem_singleton] at h
  exact ⟨_, _, h⟩

/-- C4 (amended): a Numeric column whose standard deviation is 0 — in
particular a constant column, whatever its mean — receives no
variability observation at all: the rule's `if std > 0` has no else
branch, so neither the "consistent values" nor the "high variability"
message is emitted for that column. -/
theorem constant_column_no_variability (df : DF) (types : List (String × CType))
    (stats : Stats) (col : String)
    (h : ∀ s, (col, s) ∈ stats.numeric_stats → s.svar = 0) :
    Insight.consistent col ∉ generateInsights df types stats ∧
      Insight.highVar col ∉ generateInsights df types stats := by
  have key : ∀ i, i ∈ generateInsightsAll df types stats →
      i = Insight.consistent col ∨ i = Insight.highVar col → False := by
    intro i hi hcl
    have hi5 : i ∈ analyzeNumericColumns stats ∨ i ∈ analyzeCategoricalColumns stats ∨
        i ∈ analyzeTrends df types ∨ i ∈ analyzeCorrelations stats ∨
        i ∈ analyzeDataQuality stats := by
      unfold generateInsightsAll at hi
      rcases List.mem_append.1 hi with hi | hx
      · rcases List.mem_append.1 hi with hi | hx
        · rcases List.mem_append.1 hi with hi | hx
          · rcases List.mem_append.1 hi with hx | hx
            · exact Or.inl hx
            · exact Or.inr (Or.inl hx)
          · exact Or.inr (Or.inr (Or.inl hx))
        · exact Or.inr (Or.inr (Or.inr (Or.inl hx)))
      · exact Or.inr (Or.inr (Or.inr (Or.inr hx)))
    rcases hi5 with h1 | h2 | h3 | h4 | h5
    · rw [mem_analyzeNumeric] at h1
      obtain ⟨cs, hcs, hstd, hite⟩ := h1
      have hsvar : cs.2.svar = 0 := by
        rcases hcl with rfl | rfl
        · by_cases hcv : cvOver50 cs.2 = true
          · rw [if_pos hcv] at hite
            simp at hite
          · rw [if_neg hcv] at hite
            simp only [Insight.consistent.injEq] at hite
            exact h cs.2 (by rw [hite]; exact hcs)
        · by_cases hcv : cvOver50 cs.2 = true
          · rw [if_pos hcv] at hite
            simp only [Insight.highVar.injEq] at hite
            exact h cs.2 (by rw [hite]; exact hcs)
          · rw [if_neg hcv] at hite
            simp at hite
      simp only [stdPos, Bool.and_eq_true, decide_eq_true_eq] at hstd
      rw [hsvar] at hstd
      exact absurd hstd.2 (by norm_num)
    · rcases analyzeCat_shape stats i h2 with ⟨c, v, rfl⟩ | ⟨c, u, rfl⟩ <;>
        rcases hcl with hcl | hcl <;> simp at hcl
    · obtain ⟨c, b, rfl⟩ := analyzeTrends_shape df types i h3
      rcases hcl with hcl | hcl <;> simp at hcl
    · obtain ⟨b, c1, c2, rfl⟩ := analyzeCorr_shape stats i h4
      rcases hcl with hcl | hcl <;> simp at hcl
    · obtain ⟨r, c, rfl⟩ := analyzeDQ_shape stats i h5
      rcases hcl with hcl | hcl <;> simp at hcl
  constructor
  · intro hmem
    exact key _ (List.take_subset _ _ hmem) (Or.inl rfl)
  · intro hmem
    exact key _ (List.take_subset _ _ hmem) (Or.inr rfl)

theorem mem_trendFor (df : DF) (c col : String) (b : Bool) :
    Insight.trend col b ∈ trendFor df c ↔
      (c = col ∧ 3 ≤ (dfCol df c).length ∧ (dfCol df c).all Value.isNum = true ∧
        0 < trendFirstMean df c ∧ 10 < |trendChange df c| ∧
        b = decide (0 < trendChange df c)) := by
  unfold trendFor
  by_cases h1 : (dfCol df c).length < 3
  · rw [if_pos h1]
    simp
    omega
  · rw [if_neg h1]
    by_cases h2 : (dfCol df c).all Value.isNum = true
    · rw [if_neg (by simp [h2])]
      by_cases h3 : 0 < trendFirstMean df c
      · rw [if_pos h3]
        by_cases h4 : 10 < |trendChange df c|
        · rw [if_pos h4]
          simp only [List.mem_singleton, Insight.trend.injEq]
          constructor
          · rintro ⟨rfl, rfl⟩
            exact ⟨rfl, by omega, h2, h3, h4, rfl⟩
          · rintro ⟨rfl, _, _, _, _, rfl⟩
            exact ⟨rfl, rfl⟩
        · rw [if_neg h4]
          simp only [List.not_mem_nil, false_iff, not_and]
          intro _ _ _ _ h
          exact absurd h h4
      · rw [if_neg h3]
        simp only [List.not_mem_nil, false_iff, not_and]
        intro _ _ _ h
        exact absurd h h3
    · rw [if_pos (by simp [h2])]
      simp only [List.not_mem_nil, false_iff, not_and]
      intro _ _ h
      exact absurd h h2

theorem mem_foldr_trend (df : DF) (cols : List String) (col : String) (b : Bool) :
    Insight.trend col b ∈ cols.foldr (fun c acc => trendFor df c ++ acc) [] ↔
      ∃ c ∈ cols, Insight.trend col b ∈ trendFor df c := by
  induction cols with
  | nil => simp
  | cons c cs ih =>
    simp only [List.foldr_cons, List.mem_append, ih, List.mem_cons]
    constructor
    · rintro (h | ⟨x, hx, hmem⟩)
      · exact ⟨c, Or.inl rfl, h⟩
      · exact ⟨x, Or.inr hx, hmem⟩
    · rintro ⟨x, rfl | hx, hmem⟩
      · exact Or.inl hmem
      · exact Or.inr ⟨x, hx, hmem⟩

/-- C5 (amended): for the first two Numeric columns (in type-map order)
with at least 3 values, the trend rule emits exactly when the first-half
mean is POSITIVE and `|change_pct| > 10` — the source's guard is
`first_half_mean > 0`, so a zero and also a NEGATIVE first-half mean skip
emission (the claim's "skips only when the first-half mean is zero" is
wrong); the direction is upward exactly when `change_pct > 0`. -/
theorem trend_rule_amended (df : DF) (types : List (String × CType))
    (col : String) (b : Bool) :
    Insight.trend col b ∈ analyzeTrends df types ↔
      (col ∈ (colsOfType .numeric types).take 2 ∧
        3 ≤ (dfCol df col).length ∧ (dfCol df col).all Value.isNum = true ∧
        0 < trendFirstMean df col ∧ 10 < |trendChange df col| ∧
        b = decide (0 < trendChange df col)) := by
  unfold analyzeTrends
  rw [mem_foldr_trend]
  constructor
  · rintro ⟨c, hc, hmem⟩
    obtain ⟨rfl, rest⟩ := (mem_trendFor df c col b).1 hmem
    exact ⟨hc, rest⟩
  · rintro ⟨hc, rest⟩
    exact ⟨col, hc, (mem_trendFor df col col b).2 ⟨rfl, rest⟩⟩

theorem evC4a : dropDuplicates dfC4 = dfC4 := by
  norm_num [dropDuplicates, keptIndices, keptIdx, rowsOf, rowAt, nrows, List.range_succ,
    List.enum, List.enumFrom, bmem, dfC4]

theorem evC4b : handleMissingValues dfC4 = (dfC4, []) := by
  have h1 : handleCol 3 ("id", [Value.num 1, Value.num 2, Value.num 3]) =
      (some ("id", [Value.num 1, Value.num 2, Value.num 3]), []) :=
    handleCol_noMissing _ _ (by norm_num [countNulls, Value.isNull])
  have h2 : handleCol 3 ("k", [Value.num 5, Value.num 5, Value.num 5]) =
      (some ("k", [Value.num 5, Value.num 5, Value.num 5]), []) :=
    handleCol_noMissing _ _ (by norm_num [countNulls, Value.isNull])
  simp [handleMissingValues, nrows, dfC4, h1, h2]

theorem evC4c : detectColumnTypes pNone dfC4 =
    (dfC4, [("id", CType.numeric), ("k", CType.numeric)]) := by
  simp [detectColumnTypes, detectCol, isNumericDtype, Value.isNum, Value.isNull, dfC4]

theorem evC4d1 : (clean pNone dfC4).1 = dfC4 := by
  simp [clean_fst, evC4a, evC4b, evC4c]

theorem evC4d2 : (clean pNone dfC4).2.column_types =
    [("id", CType.numeric), ("k", CType.numeric)] := by
  simp [clean_types, evC4a, evC4b, evC4c]

theorem evC4e : (calculateAll cf0 dfC4 [("id", CType.numeric), ("k", CType.numeric)]).numeric_stats =
    [("id", makeNumStats [Value.num 1, Value.num 2, Value.num 3]),
     ("k", makeNumStats [Value.num 5, Value.num 5, Value.num 5])] := by
  simp [calculateAll, colsOfType, dfCol, dfC4, List.find?]

theorem evC4f1 : (makeNumStats [Value.num 5, Value.num 5, Value.num 5]).svar = 0 := by
  norm_num [makeNumStats, numsOf, varQ, meanQ, List.filterMap_cons, List.filterMap_nil]

theorem evC4f2 : (makeNumStats [Value.num 5, Value.num 5, Value.num 5]).mean = 5 := by
  norm_num [makeNumStats, numsOf, meanQ, List.filterMap_cons, List.filterMap_nil]

theorem evC4f3 : stdPos (makeNumStats [Value.num 5, Value.num 5, Value.num 5]) = false := by
  norm_num [stdPos, makeNumStats, numsOf, varQ, meanQ, List.filterMap_cons, List.filterMap_nil]

theorem evC4f4 : (makeNumStats [Value.num 5, Value.num 5, Value.num 5]).count = 3 := by
  norm_num [makeNumStats, numsOf, List.filterMap_cons, List.filterMap_nil]

theorem evC4g1 : stdPos (makeNumStats [Value.num 1, Value.num 2, Value.num 3]) = true := by
  norm_num [stdPos, makeNumStats, numsOf, varQ, meanQ, List.filterMap_cons, List.filterMap_nil]

theorem evC4g2 : cvOver50 (makeNumStats [Value.num 1, Value.num 2, Value.num 3]) = false := by
  norm_num [cvOver50, makeNumStats, numsOf, varQ, meanQ, List.filterMap_cons, List.filterMap_nil]

theorem evC4h : analyzeNumericColumns
    (calculateAll cf0 dfC4 [("id", CType.numeric), ("k", CType.numeric)]) =
    [Insight.consistent "id"] := by
  simp [analyzeNumericColumns, evC4e, evC4g1, evC4g2, evC4f3]

theorem evC4i : analyzeCategoricalColumns
    (calculateAll cf0 dfC4 [("id", CType.numeric), ("k", CType.numeric)]) = [] := by
  simp [analyzeCategoricalColumns, calculateAll, colsOfType]

theorem evC4m1 : dfCol dfC4 "id" = [Value.num 1, Value.num 2, Value.num 3] := by
  simp [dfCol, dfC4, List.find?]

theorem evC4m2 : dfCol dfC4 "k" = [Value.num 5, Value.num 5, Value.num 5] := by
  simp [dfCol, dfC4, List.find?]

theorem evC4j1 : trendFor dfC4 "id" = [Insight.trend "id" true] := by
  norm_num [trendFor, trendChange, trendFirstMean, trendSecondMean, evC4m1,
    numsOf, meanQ, Value.isNum, List.filterMap_cons, List.filterMap_nil]

theorem evC4j2 : trendFor dfC4 "k" = [] := by
  norm_num [trendFor, trendChange, trendFirstMean, trendSecondMean, evC4m2,
    numsOf, meanQ, Value.isNum, List.filterMap_cons, List.filterMap_nil]

theorem evC4j : analyzeTrends dfC4 [("id", CType.numeric), ("k", CType.numeric)] =
    [Insight.trend "id" true] := by
  simp [analyzeTrends, colsOfType, evC4j1, evC4j2]

theorem evC4k : analyzeCorrelations
    (calculateAll cf0 dfC4 [("id", CType.numeric), ("k", CType.numeric)]) = [] := by
  have h : topCorrelationsOf (calculateAll cf0 dfC4 [("id", CType.numeric), ("k", CType.numeric)]) =
      [CorrEntry.mk "id" "k" 0] := by
    simp [topCorrelationsOf, calculateAll, getCorrelations, colsOfType, colPairs,
      sortBy, insertSorted, cf0]
  rw [analyzeCorrelations, h]
  norm_num

theorem evC4l : analyzeDataQuality
    (calculateAll cf0 dfC4 [("id", CType.numeric), ("k", CType.numeric)]) =
    [Insight.dataQuality 3 2] := by
  simp [analyzeDataQuality, calculateAll, nrows, dfC4]

theorem evC4ins : generateInsights dfC4 [("id", CType.numeric), ("k", CType.numeric)]
    (calculateAll cf0 dfC4 [("id", CType.numeric), ("k", CType.numeric)]) =
    [Insight.consistent "id", Insight.trend "id" true, Insight.dataQuality 3 2] := by
  simp [generateInsights, generateInsightsAll, evC4h, evC4i, evC4j, evC4k, evC4l]

/-- C4 counterexample: in the pipeline run on `dfC4`, the column `k` is
constant (count 3, variance 0 — i.e. std 0) with nonzero mean 5, yet the
insight list contains NO "consistent values" observation for `k` (and no
"high variability" one either): the rule emits nothing when std is 0. -/
theorem constant_column_cex :
    ("k", makeNumStats [Value.num 5, Value.num 5, Value.num 5]) ∈
        (calculateAll cf0 (clean pNone dfC4).1 (clean pNone dfC4).2.column_types).numeric_stats ∧
      (makeNumStats [Value.num 5, Value.num 5, Value.num 5]).svar = 0 ∧
      (makeNumStats [Value.num 5, Value.num 5, Value.num 5]).count = 3 ∧
      (makeNumStats [Value.num 5, Value.num 5, Value.num 5]).mean = 5 ∧
      Insight.consistent "k" ∉ generateInsights (clean pNone dfC4).1
        (clean pNone dfC4).2.column_types
        (calculateAll cf0 (clean pNone dfC4).1 (clean pNone dfC4).2.column_types) := by
  rw [evC4d1, evC4d2]
  refine ⟨?_, evC4f1, evC4f4, evC4f2, ?_⟩
  · rw [evC4e]
    simp
  · rw [evC4ins]
    simp

/-- C4 witness: the amended theorem applied to the pipeline outputs of
`dfC4`, whose only `k`-keyed numeric-stats entry has variance 0. -/
theorem constant_column_no_variability_witness :
    Insight.consistent "k" ∉ generateInsights dfC4 [("id", CType.numeric), ("k", CType.numeric)]
        (calculateAll cf0 dfC4 [("id", CType.numeric), ("k", CType.numeric)]) ∧
      Insight.highVar "k" ∉ generateInsights dfC4 [("id", CType.numeric), ("k", CType.numeric)]
        (calculateAll cf0 dfC4 [("id", CType.numeric), ("k", CType.numeric)]) := by
  refine constant_column_no_variability dfC4 _ _ "k" ?_
  intro s hs
  rw [evC4e] at hs
  simp only [List.mem_cons, List.not_mem_nil, or_false, Prod.mk.injEq] at hs
  rcases hs with ⟨h1, _⟩ | ⟨_, h2⟩
  · simp at h1
  · rw [h2]
    exact evC4f1

theorem evC5a : dropDuplicates dfC5 = dfC5 := by
  norm_num [dropDuplicates, keptIndices, keptIdx, rowsOf, rowAt, nrows, List.range_succ,
    List.enum, List.enumFrom, bmem, dfC5]

theorem evC5b : handleMissingValues dfC5 = (dfC5, []) := by
  have h1 : handleCol 3 ("x", [Value.num (-10), Value.num (-12), Value.num (-2)]) =
      (some ("x", [Value.num (-10), Value.num (-12), Value.num (-2)]), []) :=
    handleCol_noMissing _ _ (by norm_num [countNulls, Value.isNull])
  simp [handleMissingValues, nrows, dfC5, h1]

theorem evC5c : detectColumnTypes pNone dfC5 = (dfC5, [("x", CType.numeric)]) := by
  simp [detectColumnTypes, detectCol, isNumericDtype, Value.isNum, Value.isNull, dfC5]

theorem evC5d1 : (clean pNone dfC5).1 = dfC5 := by
  simp [clean_fst, evC5a, evC5b, evC5c]

theorem evC5d2 : (clean pNone dfC5).2.column_types = [("x", CType.numeric)] := by
  simp [clean_types, evC5a, evC5b, evC5c]

theorem evC5f : trendFirstMean dfC5 "x" = -10 := by
  norm_num [trendFirstMean, dfCol, dfC5, List.find?, numsOf, meanQ,
    List.filterMap_cons, List.filterMap_nil]

theorem evC5g : trendChange dfC5 "x" = -30 := by
  norm_num [trendChange, trendFirstMean, trendSecondMean, dfCol, dfC5, List.find?, numsOf,
    meanQ, List.filterMap_cons, List.filterMap_nil]

theorem evC5h : analyzeTrends dfC5 [("x", CType.numeric)] = [] := by
  have h : trendFor dfC5 "x" = [] := by
    norm_num [trendFor, trendChange, trendFirstMean, trendSecondMean, dfCol, dfC5, List.find?,
      numsOf, meanQ, Value.isNum, List.filterMap_cons, List.filterMap_nil]
  simp [analyzeTrends, colsOfType, h]

/-- C5 counterexample: in the pipeline run on `dfC5`, the single numeric
column `x` is among the first two numeric columns, has 3 values, a
NONZERO first-half mean (−10) and `|change_pct| = 30 > 10`, yet the trend
rule emits nothing — because the source skips whenever the first-half
mean is not strictly positive, not only when it is zero. -/
theorem trend_rule_cex :
    trendFirstMean (clean pNone dfC5).1 "x" = -10 ∧
      trendChange (clean pNone dfC5).1 "x" = -30 ∧
      10 < |trendChange (clean pNone dfC5).1 "x"| ∧
      "x" ∈ (colsOfType .numeric (clean pNone dfC5).2.column_types).take 2 ∧
      3 ≤ (dfCol (clean pNone dfC5).1 "x").length ∧
      analyzeTrends (clean pNone dfC5).1 (clean pNone dfC5).2.column_types = [] := by
  rw [evC5d1, evC5d2]
  refine ⟨evC5f, evC5g, ?_, ?_, ?_, evC5h⟩
  · rw [evC5g]
    norm_num
  · simp [colsOfType]
  · simp [dfCol, dfC5, List.find?]

theorem filter_isDQ_analyzeNumeric (stats : Stats) :
    (analyzeNumericColumns stats).filter isDQ = [] := by
  rw [List.filter_eq_nil_iff]
  intro i hi
  rw [mem_analyzeNumeric] at hi
  obtain ⟨cs, _, _, rfl⟩ := hi
  by_cases h2 : cvOver50 cs.2 = true
  · rw [if_pos h2]
    simp [isDQ]
  · rw [if_neg h2]
    simp [isDQ]

theorem filter_isDQ_analyzeCat (stats : Stats) :
    (analyzeCategoricalColumns stats).filter isDQ = [] := by
  rw [List.filter_eq_nil_iff]
  intro i hi
  rcases analyzeCat_shape stats i hi with ⟨c, v, rfl⟩ | ⟨c, u, rfl⟩ <;> simp [isDQ]

theorem filter_isDQ_analyzeTrends (df : DF) (types : List (String × CType)) :
    (analyzeTrends df types).filter isDQ = [] := by
  rw [List.filter_eq_nil_iff]
  intro i hi
  obtain ⟨c, b, rfl⟩ := analyzeTrends_shape df types i hi
  simp [isDQ]

theorem filter_isDQ_analyzeCorr (stats : Stats) :
    (analyzeCorrelations stats).filter isDQ = [] := by
  rw [List.filter_eq_nil_iff]
  intro i hi
  obtain ⟨b, c1, c2, rfl⟩ := analyzeCorr_shape stats i hi
  simp [isDQ]

theorem insightsAll_eq_front_dq (df : DF) (types : List (String × CType)) (stats : Stats) :
    generateInsightsAll df types stats =
      (analyzeNumericColumns stats ++ analyzeCategoricalColumns stats ++
        analyzeTrends df types ++ analyzeCorrelations stats) ++
      [Insight.dataQuality stats.overview.total_rows stats.overview.total_columns] := rfl

theorem filter_isDQ_front (df : DF) (types : List (String × CType)) (stats : Stats) :
    (analyzeNumericColumns stats ++ analyzeCategoricalColumns stats ++
      analyzeTrends df types ++ analyzeCorrelations stats).filter isDQ = [] := by
  simp only [List.filter_append, filter_isDQ_analyzeNumeric, filter_isDQ_analyzeCat,
    filter_isDQ_analyzeTrends, filter_isDQ_analyzeCorr, List.append_nil]

/-- C6 (amended): the full rule output always carries exactly one closing
data-quality observation (as its last element), and the returned list is
capped at 7 entries; but the closing observation is present in the
RETURNED list only when the total number of generated insights is at most
7 — when earlier rules already produced 7 or more, the `[:7]` cap
truncates the closing observation away. -/
theorem insight_cap_amended (df : DF) (types : List (String × CType)) (stats : Stats) :
    (generateInsights df types stats).length ≤ 7 ∧
      (generateInsightsAll df types stats).filter isDQ =
        [Insight.dataQuality stats.overview.total_rows stats.overview.total_columns] ∧
      (generateInsightsAll df types stats).getLast? =
        some (Insight.dataQuality stats.overview.total_rows stats.overview.total_columns) ∧
      (Insight.dataQuality stats.overview.total_rows stats.overview.total_columns ∈
          generateInsights df types stats ↔
        (generateInsightsAll df types stats).length ≤ 7) := by
  refine ⟨?_, ?_, ?_, ?_⟩
  · simp [generateInsights, List.length_take]
  · rw [insightsAll_eq_front_dq, List.filter_append, filter_isDQ_front]
    simp [isDQ]
  · rw [insightsAll_eq_front_dq]
    exact List.getLast?_concat _
  · constructor
    · intro hmem
      by_contra h7
      push_neg at h7
      have hlen : (generateInsightsAll df types stats).length =
          (analyzeNumericColumns stats ++ analyzeCategoricalColumns stats ++
            analyzeTrends df types ++ analyzeCorrelations stats).length + 1 := by
        rw [insightsAll_eq_front_dq]
        simp only [List.length_append, List.length_singleton]
      have hfront : 7 ≤ (analyzeNumericColumns stats ++ analyzeCategoricalColumns stats ++
          analyzeTrends df types ++ analyzeCorrelations stats).length := by omega
      rw [generateInsights, insightsAll_eq_front_dq,
        List.take_append_of_le_length hfront] at hmem
      have hmem2 := List.take_subset 7 _ hmem
      have hdq : Insight.dataQuality stats.overview.total_rows stats.overview.total_columns ∈
          (analyzeNumericColumns stats ++ analyzeCategoricalColumns stats ++
            analyzeTrends df types ++ analyzeCorrelations stats).filter isDQ :=
        List.mem_filter.2 ⟨hmem2, by rfl⟩
      rw [filter_isDQ_front] at hdq
      simp at hdq
    · intro h7
      rw [generateInsights, List.take_of_length_le h7, insightsAll_eq_front_dq]
      simp

theorem filterMap_handleCol_id (n : Nat) (d : DF) (h : ∀ c ∈ d, countNulls c.2 = 0) :
    d.filterMap (fun c => (handleCol n c).1) = d := by
  induction d with
  | nil => rfl
  | cons c cs ih =>
    simp only [List.filterMap_cons]
    rw [handleCol_noMissing n c (h c (by simp))]
    simp only
    rw [ih (fun x hx => h x (List.mem_cons_of_mem _ hx))]

theorem handleMissing_noMissing (d : DF) (h : ∀ c ∈ d, countNulls c.2 = 0) :
    handleMissingValues d = (d, []) := by
  simp only [handleMissingValues]
  exact Prod.ext (filterMap_handleCol_id _ _ h) (handleColActions_nil _ _ h)

theorem evC6a : dropDuplicates dfC6 = dfC6 := by
  norm_num [dropDuplicates, keptIndices, keptIdx, rowsOf, rowAt, nrows, List.range_succ,
    List.enum, List.enumFrom, bmem, dfC6]

theorem evC6b : handleMissingValues dfC6 = (dfC6, []) := by
  refine handleMissing_noMissing dfC6 ?_
  intro c hc
  simp only [dfC6, List.mem_cons, List.not_mem_nil, or_false] at hc
  rcases hc with rfl | rfl | rfl | rfl | rfl | rfl | rfl <;> rfl

theorem evC6c : detectColumnTypes pNone dfC6 = (dfC6, tC6) := by
  simp [detectColumnTypes, detectCol, isNumericDtype, isDatetimeDtype, Value.isNum,
    Value.isNull, Value.isDate, tryParseAll, parseValue, pNone, dfC6, tC6]

theorem evC6d1 : (clean pNone dfC6).1 = dfC6 := by
  simp [clean_fst, evC6a, evC6b, evC6c]

theorem evC6d2 : (clean pNone dfC6).2.column_types = tC6 := by
  simp [clean_types, evC6a, evC6b, evC6c]

theorem evC6e : (calculateAll cf0 dfC6 tC6).numeric_stats =
    [("n1", makeNumStats [Value.num 1, Value.num 2]),
     ("n2", makeNumStats [Value.num 1, Value.num 2]),
     ("n3", makeNumStats [Value.num 1, Value.num 2]),
     ("n4", makeNumStats [Value.num 1, Value.num 2])] := by
  simp [calculateAll, colsOfType, dfCol, dfC6, tC6, List.find?]

theorem evC6f : (calculateAll cf0 dfC6 tC6).categorical_stats =
    [("c1", makeCatStats [Value.str "a", Value.str "b"]),
     ("c2", makeCatStats [Value.str "a", Value.str "b"]),
     ("c3", makeCatStats [Value.str "a", Value.str "b"])] := by
  simp [calculateAll, colsOfType, dfCol, dfC6, tC6, List.find?]

theorem evC6g1 : stdPos (makeNumStats [Value.num 1, Value.num 2]) = true := by
  norm_num [stdPos, makeNumStats, numsOf, varQ, meanQ, List.filterMap_cons, List.filterMap_nil]

theorem evC6g2 : cvOver50 (makeNumStats [Value.num 1, Value.num 2]) = false := by
  norm_num [cvOver50, makeNumStats, numsOf, varQ, meanQ, List.filterMap_cons, List.filterMap_nil]

theorem evC6h : analyzeNumericColumns (calculateAll cf0 dfC6 tC6) =
    [Insight.consistent "n1", Insight.consistent "n2",
     Insight.consistent "n3", Insight.consistent "n4"] := by
  simp [analyzeNumericColumns, evC6e, evC6g1, evC6g2]

theorem evC6i1 : (makeCatStats [Value.str "a", Value.str "b"]).most_common_count = 1 := by
  simp [makeCatStats, valueCounts, nonNulls, Value.isNull, uniqFirst, bmem, countVal,
    sortBy, insertSorted, List.filter_cons, List.filter_nil]

theorem evC6i2 : (makeCatStats [Value.str "a", Value.str "b"]).unique_values = 2 := by
  simp [makeCatStats, valueCounts, nonNulls, Value.isNull, uniqFirst, bmem,
    List.filter_cons, List.filter_nil]

theorem evC6i3 : (calculateAll cf0 dfC6 tC6).overview.total_rows = 2 := by
  simp [calculateAll, nrows, dfC6]

theorem evC6i4 : catPercentage (calculateAll cf0 dfC6 tC6)
    (makeCatStats [Value.str "a", Value.str "b"]) = 50 := by
  rw [catPercentage, evC6i1, evC6i3]
  norm_num

theorem evC6i : analyzeCategoricalColumns (calculateAll cf0 dfC6 tC6) =
    [Insight.uniqueVals "c1" 2, Insight.uniqueVals "c2" 2, Insight.uniqueVals "c3" 2] := by
  have hcond : ¬ (50 < catPercentage (calculateAll cf0 dfC6 tC6)
      (makeCatStats [Value.str "a", Value.str "b"])) := by
    rw [evC6i4]
    norm_num
  simp only [analyzeCategoricalColumns, evC6f, List.foldr_cons, List.foldr_nil,
    if_neg hcond, evC6i2]
  simp

theorem evC6j : analyzeTrends dfC6 tC6 = [] := by
  have h1 : trendFor dfC6 "n1" = [] := by
    simp [trendFor, dfCol, dfC6, List.find?]
  have h2 : trendFor dfC6 "n2" = [] := by
    simp [trendFor, dfCol, dfC6, List.find?]
  simp [analyzeTrends, colsOfType, tC6, h1, h2]

theorem evC6k : analyzeCorrelations (calculateAll cf0 dfC6 tC6) = [] := by
  have h : (topCorrelationsOf (calculateAll cf0 dfC6 tC6)).head? =
      some (CorrEntry.mk "n1" "n2" 0) := by
    simp [topCorrelationsOf, calculateAll, getCorrelations, colsOfType, tC6, colPairs,
      sortBy, insertSorted, cf0]
  rw [analyzeCorrelations, h]
  norm_num

theorem evC6l : analyzeDataQuality (calculateAll cf0 dfC6 tC6) =
    [Insight.dataQuality 2 7] := by
  simp [analyzeDataQuality, calculateAll, nrows, dfC6, tC6]

theorem evC6ins : generateInsights dfC6 tC6 (calculateAll cf0 dfC6 tC6) =
    [Insight.consistent "n1", Insight.consistent "n2", Insight.consistent "n3",
     Insight.consistent "n4", Insight.uniqueVals "c1" 2, Insight.uniqueVals "c2" 2,
     Insight.uniqueVals "c3" 2] := by
  simp [generateInsights, generateInsightsAll, evC6h, evC6i, evC6j, evC6k, evC6l]

/-- C6 counterexample: on the pipeline run over `dfC6` (four numeric and
three categorical columns), rules 1 and 2 alone produce 7 insights, so
the returned list is the first 7 of 8 generated insights and contains NO
closing data-quality observation — contradicting "contains exactly one
closing data-quality observation". -/
theorem insight_cap_cex :
    (generateInsights (clean pNone dfC6).1 (clean pNone dfC6).2.column_types
        (calculateAll cf0 (clean pNone dfC6).1 (clean pNone dfC6).2.column_types)).filter isDQ
      = [] ∧
      (generateInsights (clean pNone dfC6).1 (clean pNone dfC6).2.column_types
        (calculateAll cf0 (clean pNone dfC6).1 (clean pNone dfC6).2.column_types)).length = 7 := by
  rw [evC6d1, evC6d2, evC6ins]
  constructor
  · rfl
  · rfl

/-- C1 (amended): the zero-row rejection lives in the UPLOAD endpoint,
which refuses an empty table with the error "File is empty" before any
analysis can start; the analyze endpoint itself performs no zero-row
validation — there is no `InvalidInputError` anywhere — and on a
zero-row table it runs the Cleaner, the statistics engine and the
insight engine to completion, returning a normal result. -/
theorem zero_rows_rejected_at_upload (df : DF) (h : nrows df = 0) :
    uploadValidate df = Except.error "File is empty" ∧
      ∀ (p : String → Option ℤ) (cf : String → String → ℚ),
        (analyzeData p cf df).toOption.isSome = true := by
  constructor
  · simp [uploadValidate, h]
  · intro p cf
    rfl

/-- C1 witness: the theorem applied to the zero-row one-column table
`dfC1`. -/
theorem zero_rows_rejected_at_upload_witness :
    uploadValidate dfC1 = Except.error "File is empty" ∧
      (analyzeData pNone cf0 dfC1).toOption.isSome = true :=
  ⟨(zero_rows_rejected_at_upload dfC1 rfl).1,
   (zero_rows_rejected_at_upload dfC1 rfl).2 pNone cf0⟩

/-- C1 counterexample: on the zero-row table `dfC1` the analyze pipeline
does not fail at all: it returns a normal result whose cleaning report
records the zero-row original shape and an empty action list — cleaning
ran and completed, contradicting "the pipeline fails with an
InvalidInputError before any cleaning operation begins". -/
theorem zero_rows_analyze_cex :
    (analyzeData pNone cf0 dfC1).toOption.map (fun r => r.cleaning_report.actions) = some [] ∧
      (analyzeData pNone cf0 dfC1).toOption.map
        (fun r => r.cleaning_report.original_rows) = some 0 ∧
      (analyzeData pNone cf0 dfC1).toOption.map
        (fun r => r.cleaning_report.cleaned_cols) = some 1 := by
  refine ⟨rfl, rfl, rfl⟩

end ZeroAnalyst
